import Mathlib

/-!
Verification development for the xclbin container codec
(`src/runtime_src/tools/xclbinutil/XclBinClass.cxx`).

The development shallowly embeds the codec: the fixed `axlf` binary header,
the section-header table, the 8-byte-aligned payload layout, the trailing
JSON mirror delimited by the `XCLBIN_MIRROR_DATA_START`/`..._END` sentinels,
the binary and migrate read paths, and the mutation helpers
(`removeSection`, `setKeyValue`/`removeKey`, `addPsKernel`,
`getVersionMajorMinorPath`).

Struct sizes and field offsets follow `xclbin.h` (`sizeof(axlf) = 496`,
`sizeof(axlf_section_header) = 40`; the written header is
`sizeof(axlf) - sizeof(axlf_section_header) = 456` bytes).  Helper routines
that live outside this excerpt (`XclBinUtilities`, `FormattedOutput`,
`Section`) are modelled from the specification where noted.
-/

namespace XclbinModel

/-! ## Byte-level primitives -/

/-- Little-endian serialization of a natural into `w` bytes (models the
in-memory layout of the fixed-width integer fields of `axlf`). -/
def leBytes : Nat → Nat → List Nat
  | 0, _ => []
  | w + 1, v => v % 256 :: leBytes w (v / 256)

/-- Value of a little-endian byte list. -/
def leVal : List Nat → Nat
  | [] => 0
  | b :: bs => b + 256 * leVal bs

@[simp] theorem leBytes_length (w v : Nat) : (leBytes w v).length = w := by
  induction w generalizing v with
  | zero => rfl
  | succ w ih => simp [leBytes, ih]

theorem leVal_leBytes (w v : Nat) (h : v < 256 ^ w) : leVal (leBytes w v) = v := by
  induction w generalizing v with
  | zero =>
    simp [pow_zero] at h
    simp [leBytes, leVal, h]
  | succ w ih =>
    have hv : v / 256 < 256 ^ w := by
      rw [Nat.div_lt_iff_lt_mul (by norm_num)]
      calc v < 256 ^ (w + 1) := h
        _ = 256 ^ w * 256 := by ring
    simp [leBytes, leVal, ih _ hv]
    omega

theorem leBytes_lt (w v : Nat) : ∀ b ∈ leBytes w v, b < 256 := by
  induction w generalizing v with
  | zero => simp [leBytes]
  | succ w ih =>
    intro b hb
    simp [leBytes] at hb
    rcases hb with h | h
    · omega
    · exact ih _ _ h

/-- Fixed-width zero-terminated string field, as produced by
`XUtil::safeStringCopy` (modelled from the spec: copy with truncation to the
fixed field width, NUL padding). -/
def strFix (w : Nat) (s : String) : List Nat :=
  let cs := (s.toList.map Char.toNat).take (w - 1)
  cs ++ List.replicate (w - cs.length) 0

/-- Read a NUL-terminated string back out of a fixed-width field. -/
def strParse (bs : List Nat) : String :=
  String.mk ((bs.takeWhile (fun b => b ≠ 0)).map Char.ofNat)

/-- Well-formedness of a string destined for a `w`-byte field: it fits with
its terminator, and every character is a nonzero single byte. -/
def strWF (w : Nat) (s : String) : Prop :=
  s.toList.length < w ∧ ∀ c ∈ s.toList, c.toNat ≠ 0 ∧ c.toNat < 256

instance (w : Nat) (s : String) : Decidable (strWF w s) := by
  unfold strWF; infer_instance

@[simp] theorem strFix_length (w : Nat) (s : String) (hw : 0 < w) :
    (strFix w s).length = w := by
  simp only [strFix, List.length_append, List.length_replicate, List.length_take,
    List.length_map]
  omega

theorem strParse_strFix (w : Nat) (s : String) (h : strWF w s) :
    strParse (strFix w s) = s := by
  obtain ⟨hlen, hchar⟩ := h
  have htake : (s.toList.map Char.toNat).take (w - 1) = s.toList.map Char.toNat := by
    apply List.take_of_length_le
    simp only [List.length_map]
    omega
  have hw : 0 < w := by omega
  unfold strParse strFix
  rw [htake]
  have hrep : 0 < (w - (s.toList.map Char.toNat).length) := by
    simp only [List.length_map]; omega
  have htw : (s.toList.map Char.toNat ++
      List.replicate (w - (s.toList.map Char.toNat).length) 0).takeWhile
        (fun b => b ≠ 0) = s.toList.map Char.toNat := by
    rw [List.takeWhile_append]
    have hall : s.toList.map Char.toNat = (s.toList.map Char.toNat).takeWhile
        (fun b => b ≠ 0) := by
      symm
      rw [List.takeWhile_eq_self_iff]
      intro b hb
      simp only [List.mem_map] at hb
      obtain ⟨c, hc, rfl⟩ := hb
      simpa using (hchar c hc).1
    rw [← hall]
    simp only [if_pos (le_refl _), List.append_right_eq_self, ← hall]
    cases hk : w - (s.toList.map Char.toNat).length with
    | zero => omega
    | succ k => simp [List.takeWhile, List.replicate]
  rw [htw]
  have : ∀ c ∈ s.toList, Char.ofNat c.toNat = c := by
    intro c hc
    have := (hchar c hc).2
    apply Char.ext
    simp only [Char.ofNat, Char.toNat] at *
    rw [dif_pos]
    · rfl
    · constructor
      omega
  rw [List.map_map]
  have hmap : s.toList.map (Char.ofNat ∘ Char.toNat) = s.toList := by
    conv_rhs => rw [← List.map_id s.toList]
    exact List.map_congr_left fun c hc => this c hc
  rw [hmap]
  cases s
  rfl

theorem strFix_lt (w : Nat) (s : String) (h : ∀ c ∈ s.toList, c.toNat < 256) :
    ∀ b ∈ strFix w s, b < 256 := by
  intro b hb
  simp only [strFix, List.mem_append, List.mem_replicate] at hb
  rcases hb with hb | hb
  · have hb2 := List.mem_of_mem_take hb
    simp only [List.mem_map] at hb2
    obtain ⟨c, hc, rfl⟩ := hb2
    exact h c hc
  · omega

/-- Raw byte-array field (UUID, key block, reserved area): the in-memory value
already has the exact width, serialization is the identity. -/
def bytesWF (w : Nat) (l : List Nat) : Prop :=
  l.length = w ∧ ∀ b ∈ l, b < 256

instance (w : Nat) (l : List Nat) : Decidable (bytesWF w l) := by
  unfold bytesWF; infer_instance

/-- Field slice: `len` bytes at absolute offset `off` (models reading a struct
member out of a byte stream). -/
def fld (bs : List Nat) (off len : Nat) : List Nat :=
  (bs.drop off).take len

theorem fld_skip (x r : List Nat) (off len : Nat) (h : x.length ≤ off) :
    fld (x ++ r) off len = fld r (off - x.length) len := by
  unfold fld
  rcases Nat.exists_eq_add_of_le h with ⟨i, rfl⟩
  rw [List.drop_append]
  congr 2
  omega

theorem fld_here (x r : List Nat) (len : Nat) (h : x.length = len) :
    fld (x ++ r) 0 len = x := by
  unfold fld
  rw [List.drop_zero, List.take_append_of_le_length (by omega), List.take_of_length_le (by omega)]

/-! ## The `axlf` container header -/

/-- Inner `axlf_header` struct (field view).  Layout per `xclbin.h`:
length, timestamp, feature-ROM timestamp, version patch/major/minor,
mode, action mask, feature-ROM UUID, platform VBNV, container UUID,
debug-bin name, section count. -/
structure AxlfHeader where
  m_length : Nat
  m_timeStamp : Nat
  m_featureRomTimeStamp : Nat
  m_versionPatch : Nat
  m_versionMajor : Nat
  m_versionMinor : Nat
  m_mode : Nat
  m_actionMask : Nat
  rom_uuid : List Nat
  m_platformVBNV : String
  uuid : List Nat
  m_debug_bin : String
  m_numSections : Nat
deriving Repr, DecidableEq

/-- Outer `axlf` struct (field view), without the trailing
`axlf_section_header m_sections[1]` placeholder, which is never part of
the written header (`writeXclBinBinaryHeader` emits
`sizeof(axlf) - sizeof(axlf_section_header)` bytes). -/
structure Axlf where
  m_magic : String
  m_signature_length : Int
  reserved : List Nat
  m_keyBlock : List Nat
  m_uniqueId : Nat
  m_header : AxlfHeader
deriving Repr, DecidableEq

instance : Inhabited AxlfHeader :=
  ⟨⟨0, 0, 0, 0, 0, 0, 0, 0, List.replicate 16 0, (""), List.replicate 16 0, (""), 0⟩⟩

instance : Inhabited Axlf :=
  ⟨⟨("xclbin2"), -1, List.replicate 28 255, List.replicate 256 255, 0, default⟩⟩

/-- Size of the full `axlf` struct per `xclbin.h`. -/
def sizeofAxlf : Nat := 496

/-- Size of one `axlf_section_header` table entry per `xclbin.h`. -/
def sizeofSectionHeader : Nat := 40

/-- Size of the header as written to disk:
`sizeof(axlf) - sizeof(axlf_section_header) = 456`. -/
def writtenHeaderSize : Nat := sizeofAxlf - sizeofSectionHeader

/-- Serialize a signed 32-bit field (two's complement, little endian). -/
def intBytes4 (v : Int) : List Nat :=
  leBytes 4 ((v % (2 ^ 32 : Nat)).toNat)

/-- Read a signed 32-bit field back. -/
def intOfLe4 (bs : List Nat) : Int :=
  let v := leVal bs
  if v < 2 ^ 31 then (v : Int) else (v : Int) - 2 ^ 32

/-- Serialization of the inner `axlf_header` (152 bytes, including the
4 tail-padding bytes the C struct carries). -/
def serializeAxlfHeader (h : AxlfHeader) : List Nat :=
  leBytes 8 h.m_length ++
  (leBytes 8 h.m_timeStamp ++
  (leBytes 8 h.m_featureRomTimeStamp ++
  (leBytes 2 h.m_versionPatch ++
  (leBytes 1 h.m_versionMajor ++
  (leBytes 1 h.m_versionMinor ++
  (leBytes 2 h.m_mode ++
  (leBytes 2 h.m_actionMask ++
  (h.rom_uuid ++
  (strFix 64 h.m_platformVBNV ++
  (h.uuid ++
  (strFix 16 h.m_debug_bin ++
  (leBytes 4 h.m_numSections ++
  List.replicate 4 0))))))))))))

/-- Serialization of the written part of `axlf` (456 bytes). -/
def serializeAxlf (a : Axlf) : List Nat :=
  strFix 8 a.m_magic ++
  (intBytes4 a.m_signature_length ++
  (a.reserved ++
  (a.m_keyBlock ++
  (leBytes 8 a.m_uniqueId ++
  serializeAxlfHeader a.m_header))))

/-- Parse the inner `axlf_header` out of its 152-byte image. -/
def parseAxlfHeader (bs : List Nat) : AxlfHeader where
  m_length := leVal (fld bs 0 8)
  m_timeStamp := leVal (fld bs 8 8)
  m_featureRomTimeStamp := leVal (fld bs 16 8)
  m_versionPatch := leVal (fld bs 24 2)
  m_versionMajor := leVal (fld bs 26 1)
  m_versionMinor := leVal (fld bs 27 1)
  m_mode := leVal (fld bs 28 2)
  m_actionMask := leVal (fld bs 30 2)
  rom_uuid := fld bs 32 16
  m_platformVBNV := strParse (fld bs 48 64)
  uuid := fld bs 112 16
  m_debug_bin := strParse (fld bs 128 16)
  m_numSections := leVal (fld bs 144 4)

/-- Parse the `axlf` header fields out of the leading bytes of a stream
(models `istream.read((char*)&m_xclBinHeader, sizeof(axlf))` which overlays
the struct onto the bytes). -/
def parseAxlf (bs : List Nat) : Axlf where
  m_magic := strParse (fld bs 0 8)
  m_signature_length := intOfLe4 (fld bs 8 4)
  reserved := fld bs 12 28
  m_keyBlock := fld bs 40 256
  m_uniqueId := leVal (fld bs 296 8)
  m_header := parseAxlfHeader (bs.drop 304)

/-- Well-formedness of an in-memory `axlf_header`: every field fits its
fixed-width slot. -/
def AxlfHeader.WF (h : AxlfHeader) : Prop :=
  h.m_length < 2 ^ 64 ∧ h.m_timeStamp < 2 ^ 64 ∧ h.m_featureRomTimeStamp < 2 ^ 64 ∧
  h.m_versionPatch < 2 ^ 16 ∧ h.m_versionMajor < 2 ^ 8 ∧ h.m_versionMinor < 2 ^ 8 ∧
  h.m_mode < 2 ^ 16 ∧ h.m_actionMask < 2 ^ 16 ∧
  bytesWF 16 h.rom_uuid ∧ strWF 64 h.m_platformVBNV ∧
  bytesWF 16 h.uuid ∧ strWF 16 h.m_debug_bin ∧ h.m_numSections < 2 ^ 32

/-- Well-formedness of an in-memory `axlf`: the magic is the constant
`"xclbin2"` string and every field fits its slot. -/
def Axlf.WF (a : Axlf) : Prop :=
  a.m_magic = ("xclbin2") ∧ (-2 ^ 31 : Int) ≤ a.m_signature_length ∧
  a.m_signature_length < 2 ^ 31 ∧ bytesWF 28 a.reserved ∧
  bytesWF 256 a.m_keyBlock ∧ a.m_uniqueId < 2 ^ 64 ∧ a.m_header.WF

instance (h : AxlfHeader) : Decidable h.WF := by unfold AxlfHeader.WF; infer_instance

instance (a : Axlf) : Decidable a.WF := by unfold Axlf.WF; infer_instance

theorem serializeAxlfHeader_length (h : AxlfHeader) (hWF : h.WF) :
    (serializeAxlfHeader h).length = 152 := by
  obtain ⟨-, -, -, -, -, -, -, -, hr, hp, hu, hd, -⟩ := hWF
  simp [serializeAxlfHeader, hr.1, hu.1, strFix_length]

theorem serializeAxlf_length (a : Axlf) (hWF : a.WF) :
    (serializeAxlf a).length = writtenHeaderSize := by
  obtain ⟨-, -, -, hres, hkb, -, hh⟩ := hWF
  simp [serializeAxlf, intBytes4, hres.1, hkb.1, serializeAxlfHeader_length _ hh,
    strFix_length, writtenHeaderSize, sizeofAxlf, sizeofSectionHeader]

theorem drop_skip (x r : List Nat) (n : Nat) (h : x.length ≤ n) :
    (x ++ r).drop n = r.drop (n - x.length) := by
  rcases Nat.exists_eq_add_of_le h with ⟨i, rfl⟩
  rw [List.drop_append]
  congr 1
  omega

@[simp] theorem intBytes4_length (v : Int) : (intBytes4 v).length = 4 := by
  simp [intBytes4]

theorem intOfLe4_intBytes4 (v : Int) (h1 : (-2 ^ 31 : Int) ≤ v) (h2 : v < 2 ^ 31) :
    intOfLe4 (intBytes4 v) = v := by
  unfold intOfLe4 intBytes4
  have hmod : (0 : Int) ≤ v % (2 ^ 32 : Nat) := Int.emod_nonneg v (by norm_num)
  have hmodlt : v % (2 ^ 32 : Nat) < (2 ^ 32 : Nat) := Int.emod_lt_of_pos v (by norm_num)
  rw [leVal_leBytes 4 _ (by omega)]
  have hv : ((v % (2 ^ 32 : Nat)).toNat : Int) = v % (2 ^ 32 : Nat) :=
    Int.toNat_of_nonneg hmod
  push_cast at *
  split <;> omega

theorem leVal_leBytes1 (v : Nat) (h : v < 2 ^ 8) : leVal (leBytes 1 v) = v :=
  leVal_leBytes 1 v (by norm_num at h ⊢; omega)

theorem leVal_leBytes2 (v : Nat) (h : v < 2 ^ 16) : leVal (leBytes 2 v) = v :=
  leVal_leBytes 2 v (by norm_num at h ⊢; omega)

theorem leVal_leBytes4nat (v : Nat) (h : v < 2 ^ 32) : leVal (leBytes 4 v) = v :=
  leVal_leBytes 4 v (by norm_num at h ⊢; omega)

theorem leVal_leBytes8 (v : Nat) (h : v < 2 ^ 64) : leVal (leBytes 8 v) = v :=
  leVal_leBytes 8 v (by norm_num at h ⊢; omega)

theorem parseAxlfHeader_serialize (h : AxlfHeader) (hWF : h.WF) (rest : List Nat) :
    parseAxlfHeader (serializeAxlfHeader h ++ rest) = h := by
  obtain ⟨h1, h2, h3, h4, h5, h6, h7, h8, hr, hp, hu, hd, h9⟩ := hWF
  cases h with
  | mk len ts rts vp vMa vMi mo am ru pv uu db ns =>
  dsimp only at h1 h2 h3 h4 h5 h6 h7 h8 hr hp hu hd h9
  simp only [serializeAxlfHeader, List.append_assoc, parseAxlfHeader]
  simp only [AxlfHeader.mk.injEq]
  refine ⟨?_, ?_, ?_, ?_, ?_, ?_, ?_, ?_, ?_, ?_, ?_, ?_, ?_⟩ <;>
    simp [fld_skip, fld_here, leBytes_length, strFix_length, hr.1, hu.1,
      leVal_leBytes8 len h1, leVal_leBytes8 ts h2, leVal_leBytes8 rts h3,
      leVal_leBytes2 vp h4, leVal_leBytes1 vMa h5, leVal_leBytes1 vMi h6,
      leVal_leBytes2 mo h7, leVal_leBytes2 am h8, leVal_leBytes4nat ns h9,
      strParse_strFix _ _ hp, strParse_strFix _ _ hd]

theorem parseAxlf_serialize (a : Axlf) (hWF : a.WF) (rest : List Nat) :
    parseAxlf (serializeAxlf a ++ rest) = a := by
  have hm : strWF 8 a.m_magic := by rw [hWF.1]; decide
  obtain ⟨h1, h2, h3, hres, hkb, hid, hh⟩ := hWF
  cases a with
  | mk magic sig res kb uid hdr =>
  dsimp only at hm h1 h2 h3 hres hkb hid hh
  simp only [serializeAxlf, List.append_assoc, parseAxlf]
  simp only [Axlf.mk.injEq]
  refine ⟨?_, ?_, ?_, ?_, ?_, ?_⟩ <;>
    simp [fld_skip, fld_here, drop_skip, leBytes_length, strFix_length, hres.1, hkb.1,
      leVal_leBytes8 uid hid, strParse_strFix _ _ hm, intOfLe4_intBytes4 _ h2 h3,
      parseAxlfHeader_serialize _ hh]

theorem serializeAxlf_bytes_lt (a : Axlf) (hWF : a.WF) :
    ∀ b ∈ serializeAxlf a, b < 256 := by
  obtain ⟨h1, h2, h3, hres, hkb, hid, hh⟩ := hWF
  obtain ⟨g1, g2, g3, g4, g5, g6, g7, g8, hr, hp, hu, hd, g9⟩ := hh
  intro b hb
  simp only [serializeAxlf, serializeAxlfHeader, intBytes4, List.mem_append,
    List.mem_replicate] at hb
  rcases hb with hb | hb | hb | hb | hb | hb | hb | hb | hb | hb | hb | hb | hb | hb | hb | hb | hb | hb | hb
  · refine strFix_lt _ _ ?_ b hb
    intro c hc
    rw [h1] at hc
    exact (by decide : ∀ c ∈ ("xclbin2").toList, c.toNat < 256) c hc
  · exact leBytes_lt _ _ _ hb
  · exact hres.2 b hb
  · exact hkb.2 b hb
  · exact leBytes_lt _ _ _ hb
  · exact leBytes_lt _ _ _ hb
  · exact leBytes_lt _ _ _ hb
  · exact leBytes_lt _ _ _ hb
  · exact leBytes_lt _ _ _ hb
  · exact leBytes_lt _ _ _ hb
  · exact leBytes_lt _ _ _ hb
  · exact leBytes_lt _ _ _ hb
  · exact leBytes_lt _ _ _ hb
  · exact hr.2 b hb
  · exact strFix_lt _ _ (fun c hc => (hp.2 c hc).2) b hb
  · exact hu.2 b hb
  · exact strFix_lt _ _ (fun c hc => (hd.2 c hc).2) b hb
  · exact leBytes_lt _ _ _ hb
  · omega

/-! ## Sections and the layout engine -/

/-- JSON image generated for a PS kernel METADATA sub-section by
`XclBin::addPsKernel` (the `soft_kernel_metadata` node). -/
structure PsKernelMeta where
  mpo_name : String
  mpo_version : String
  mpo_md5_value : String
  mpo_symbol_name : String
  m_num_instances : Nat
deriving Repr, DecidableEq

/-- Payload of a named sub-section buffer: either raw bytes (`FT_RAW`) or the
structured JSON image of a generated PS-kernel metadata node (`FT_JSON`). -/
inductive SubPayload where
  | raw (bytes : List Nat)
  | meta (m : PsKernelMeta)
deriving Repr, DecidableEq

/-- In-memory `Section` object as owned by `XclBin::m_sections`: kind tag,
display name, optional index name, serialized payload buffer
(`writeXclBinSectionBuffer` output), plus the structured views used by the
mutation API — the key/value list of a `KEYVALUE_METADATA` section's JSON
image, and named sub-section buffers.  The per-kind codecs live in
`Section.cxx` (outside this excerpt); the payload is carried as opaque
bytes. -/
structure XSection where
  kind : Nat
  name : String
  indexName : String
  payload : List Nat
  kv : List (String × String)
  subs : List (String × SubPayload)
deriving Repr, DecidableEq

instance : Inhabited XSection :=
  ⟨⟨0, ("") , ("") , [], [], []⟩⟩

/-- Section kind numbers used by the codec, per the `axlf_section_kind`
enumeration of `xclbin.h`. -/
def DEBUG_DATA : Nat := 4

/-- Kind number of `BUILD_METADATA` per `xclbin.h`. -/
def BUILD_METADATA : Nat := 14

/-- Kind number of `KEYVALUE_METADATA` per `xclbin.h`. -/
def KEYVALUE_METADATA : Nat := 15

/-- Kind number of `SOFT_KERNEL` per `xclbin.h`. -/
def SOFT_KERNEL : Nat := 23

/-- One `axlf_section_header` table entry. -/
structure SectionHeaderEntry where
  m_sectionKind : Nat
  m_sectionName : String
  m_sectionOffset : Nat
  m_sectionSize : Nat
deriving Repr, DecidableEq

/-- Build the table entry for a section (models
`Section::initXclBinSectionHeader`, which fills kind, name and size;
the offset is assigned afterwards by `writeXclBinBinarySections`). -/
def XSection.toEntry (s : XSection) (off : Nat) : SectionHeaderEntry where
  m_sectionKind := s.kind
  m_sectionName := s.name
  m_sectionOffset := off
  m_sectionSize := s.payload.length

/-- The 4 struct-padding bytes between the name and offset fields of
`axlf_section_header`. -/
def structPad4 : List Nat := List.replicate 4 0

/-- Length of the struct padding. -/
theorem structPad4_length : structPad4.length = 4 := rfl

/-- Serialization of one table entry (40 bytes: u32 kind, char[16] name,
4 bytes struct padding, u64 offset, u64 size). -/
def serializeEntry (e : SectionHeaderEntry) : List Nat :=
  leBytes 4 e.m_sectionKind ++
  (strFix 16 e.m_sectionName ++
  (structPad4 ++
  (leBytes 8 e.m_sectionOffset ++
  leBytes 8 e.m_sectionSize)))

/-- Parse one table entry from the leading 40 bytes of a stream. -/
def parseEntry (bs : List Nat) : SectionHeaderEntry where
  m_sectionKind := leVal (fld bs 0 4)
  m_sectionName := strParse (fld bs 4 16)
  m_sectionOffset := leVal (fld bs 24 8)
  m_sectionSize := leVal (fld bs 32 8)

/-- Well-formedness of a table entry. -/
def SectionHeaderEntry.WF (e : SectionHeaderEntry) : Prop :=
  e.m_sectionKind < 2 ^ 32 ∧ strWF 16 e.m_sectionName ∧
  e.m_sectionOffset < 2 ^ 64 ∧ e.m_sectionSize < 2 ^ 64

instance (e : SectionHeaderEntry) : Decidable e.WF := by
  unfold SectionHeaderEntry.WF; infer_instance

theorem serializeEntry_length (e : SectionHeaderEntry) :
    (serializeEntry e).length = sizeofSectionHeader := by
  simp [serializeEntry, strFix_length, structPad4_length, sizeofSectionHeader]

theorem parseEntry_serialize (e : SectionHeaderEntry) (hWF : e.WF) (rest : List Nat) :
    parseEntry (serializeEntry e ++ rest) = e := by
  obtain ⟨h1, h2, h3, h4⟩ := hWF
  cases e with
  | mk k nm off sz =>
  dsimp only at h1 h2 h3 h4
  simp only [serializeEntry, List.append_assoc, parseEntry]
  simp only [SectionHeaderEntry.mk.injEq]
  refine ⟨?_, ?_, ?_, ?_⟩ <;>
    simp [fld_skip, fld_here, leBytes_length, strFix_length, structPad4_length,
      leVal_leBytes4nat k h1, leVal_leBytes8 off h3, leVal_leBytes8 sz h4,
      strParse_strFix _ _ h2]

/-- Padding needed to advance `off` to the next 8-byte boundary (models
`XUtil::bytesToAlign`, per the spec's alignment rule). -/
def bytesToAlign (off : Nat) : Nat := (8 - off % 8) % 8

/-- A size padded to the next 8-byte boundary. -/
def roundUp8 (n : Nat) : Nat := n + bytesToAlign n

/-- Sum of the 8-byte-padded sizes of a list of payload sizes. -/
def padSum (sizes : List Nat) : Nat := (sizes.map roundUp8).sum

/-- Offset assignment loop of `XclBin::writeXclBinBinarySections`: starting
from `currentOffset`, advance by the padding needed to reach the next 8-byte
boundary, record the section's offset, then advance by its size. -/
def computeOffsets : Nat → List Nat → List Nat
  | _, [] => []
  | cur, sz :: rest =>
    (cur + bytesToAlign cur) :: computeOffsets (cur + bytesToAlign cur + sz) rest

/-- Initial `currentOffset` of `writeXclBinBinarySections`:
`sizeof(axlf) - sizeof(axlf_section_header) + n * sizeof(axlf_section_header)`. -/
def startOffset (n : Nat) : Nat := writtenHeaderSize + n * sizeofSectionHeader

/-- The recorded offsets for a list of payload sizes. -/
def writeOffsets (sizes : List Nat) : List Nat :=
  computeOffsets (startOffset sizes.length) sizes

theorem computeOffsets_length (cur : Nat) (sizes : List Nat) :
    (computeOffsets cur sizes).length = sizes.length := by
  induction sizes generalizing cur with
  | nil => rfl
  | cons sz rest ih => simp [computeOffsets, ih]

theorem computeOffsets_eq (cur : Nat) (sizes : List Nat) :
    computeOffsets cur sizes =
      (List.range sizes.length).map
        (fun i => (cur + bytesToAlign cur) + padSum (sizes.take i)) := by
  induction sizes generalizing cur with
  | nil => rfl
  | cons sz rest ih =>
    simp only [computeOffsets, List.length_cons, List.range_succ_eq_map,
      List.map_cons, List.map_map, List.cons.injEq]
    refine ⟨by simp [padSum], ?_⟩
    rw [ih]
    apply List.map_congr_left
    intro i hi
    simp only [Function.comp_apply, List.take_succ_cons]
    have ha : cur + bytesToAlign cur + sz + bytesToAlign (cur + bytesToAlign cur + sz)
        = cur + bytesToAlign cur + roundUp8 sz := by
      simp only [roundUp8, bytesToAlign]
      omega
    rw [ha]
    simp [padSum]
    ring

theorem padSum_mod8 (sizes : List Nat) : padSum sizes % 8 = 0 := by
  induction sizes with
  | nil => simp [padSum]
  | cons sz rest ih =>
    simp only [padSum, List.map_cons, List.sum_cons] at *
    simp only [roundUp8, bytesToAlign]
    omega

theorem padSum_take_succ (sizes : List Nat) (i : Nat) (h : i < sizes.length) :
    padSum (sizes.take (i + 1)) = padSum (sizes.take i) + roundUp8 (sizes.getD i 0) := by
  rw [List.take_succ]
  have hg : sizes[i]? = some (sizes.getD i 0) := by
    rw [List.getElem?_eq_getElem h, List.getD_eq_getElem _ _ h]
  rw [hg]
  simp [padSum]

theorem alignUp_shift (a b : Nat) :
    (a + bytesToAlign a + b) + bytesToAlign (a + bytesToAlign a + b)
      = a + bytesToAlign a + roundUp8 b := by
  simp only [roundUp8, bytesToAlign]
  omega

theorem computeOffsets_getD (sizes : List Nat) (cur i : Nat) (h : i < sizes.length) :
    (computeOffsets cur sizes).getD i 0
      = cur + bytesToAlign cur + padSum (sizes.take i) := by
  induction sizes generalizing cur i with
  | nil => simp at h
  | cons sz rest ih =>
    cases i with
    | zero => simp [computeOffsets, padSum]
    | succ i =>
      simp only [computeOffsets, List.getD_cons_succ, List.take_succ_cons]
      rw [ih _ _ (by simpa using h), alignUp_shift]
      simp [padSum]
      ring

/-- The payload area of the file as laid down by the write loop of
`writeXclBinBinarySections`: for each section, zero padding up to the next
8-byte boundary, then the section's serialized buffer. -/
def payloadRegion : Nat → List XSection → List Nat
  | _, [] => []
  | cur, s :: rest =>
    List.replicate (bytesToAlign cur) 0 ++
      (s.payload ++ payloadRegion (cur + bytesToAlign cur + s.payload.length) rest)

/-- Stream position after the write loop finishes. -/
def endOffset : Nat → List Nat → Nat
  | cur, [] => cur
  | cur, sz :: rest => endOffset (cur + bytesToAlign cur + sz) rest

theorem payloadRegion_length (secs : List XSection) (cur : Nat) :
    cur + (payloadRegion cur secs).length
      = endOffset cur (secs.map (fun s => s.payload.length)) := by
  induction secs generalizing cur with
  | nil => simp [payloadRegion, endOffset]
  | cons s rest ih =>
    simp only [payloadRegion, endOffset, List.map_cons, List.length_append,
      List.length_replicate]
    rw [← ih (cur + bytesToAlign cur + s.payload.length)]
    ring

theorem endOffset_ge (sizes : List Nat) (cur : Nat) : cur ≤ endOffset cur sizes := by
  induction sizes generalizing cur with
  | nil => simp [endOffset]
  | cons sz rest ih =>
    calc cur ≤ cur + bytesToAlign cur + sz := by omega
    _ ≤ endOffset (cur + bytesToAlign cur + sz) rest := ih _

theorem payloadRegion_slice (secs : List XSection) (cur i : Nat) (h : i < secs.length) :
    fld (payloadRegion cur secs)
        ((computeOffsets cur (secs.map (fun s => s.payload.length))).getD i 0 - cur)
        ((secs.getD i default).payload.length)
      = (secs.getD i default).payload := by
  induction secs generalizing cur i with
  | nil => simp at h
  | cons s rest ih =>
    cases i with
    | zero =>
      simp only [payloadRegion, List.map_cons, computeOffsets, List.getD_cons_zero]
      have hsub : cur + bytesToAlign cur - cur = bytesToAlign cur := by omega
      rw [hsub, fld_skip _ _ _ _ (by simp)]
      simp only [List.length_replicate, Nat.sub_self]
      rw [fld_here _ _ _ rfl]
    | succ i =>
      have hi : i < rest.length := by simpa using h
      simp only [payloadRegion, List.map_cons, computeOffsets, List.getD_cons_succ]
      set cur2 := cur + bytesToAlign cur + s.payload.length with hcur2
      have hoff : (computeOffsets cur2 (rest.map (fun s => s.payload.length))).getD i 0
          = cur2 + bytesToAlign cur2 + padSum ((rest.map (fun s => s.payload.length)).take i) :=
        computeOffsets_getD _ _ _ (by simpa using hi)
      have hge : cur2 ≤ (computeOffsets cur2 (rest.map (fun s => s.payload.length))).getD i 0 := by
        omega
      rw [fld_skip _ _ _ _ (by simp only [List.length_replicate]; omega)]
      rw [fld_skip _ _ _ _ (by simp only [List.length_replicate]; omega)]
      have harith : (computeOffsets cur2 (rest.map (fun s => s.payload.length))).getD i 0 - cur
            - (List.replicate (bytesToAlign cur) (0 : Nat)).length - s.payload.length
          = (computeOffsets cur2 (rest.map (fun s => s.payload.length))).getD i 0 - cur2 := by
        simp only [List.length_replicate]
        omega
      rw [harith]
      exact ih _ _ hi

/-! ## Container state, mirror record, error taxonomy -/

/-- In-memory container: `XclBin::m_xclBinHeader` plus the owned ordered
section collection `XclBin::m_sections`. -/
structure XclBinState where
  header : Axlf
  sections : List XSection
deriving Repr, DecidableEq

/-- Update the section-count header field. -/
def setNumSections (a : Axlf) (n : Nat) : Axlf :=
  { a with m_header := { a.m_header with m_numSections := n } }

/-- Model of `XclBin::addSection` on a non-null section: append, then set
`m_numSections` to the new collection size. -/
def addSection (st : XclBinState) (s : XSection) : XclBinState where
  header := setNumSections st.header (st.sections.length + 1)
  sections := st.sections ++ [s]

/-- Model of `XclBin::findSection`: first section matching the kind whose
index name equals the requested one (empty request matches empty index). -/
def findSection (secs : List XSection) (kind : Nat) (indexName : String) : Option XSection :=
  secs.find? (fun s => s.kind = kind ∧ s.indexName = indexName)

/-- Error taxonomy: each constructor stands for one of the distinct error
messages thrown by the codec. -/
inductive XErr where
  | truncatedHeader
  | badMagic
  | truncatedSectionHeader
  | missingMirrorData
  | malformedMirrorData
  | jsonParseError (line : Nat) (msg : String)
  | nullSection
  | formatError (msg : String)
  | indexUsage (msg : String)
  | missingSection (msg : String)
  | duplicateSection (msg : String)
  | ioError (path : String)
  | unknownKey (msg : String)
  | keyNotFound (key : String)
  | stoiFailure
  | unknownSectionName (name : String)
deriving Repr, DecidableEq

/-- External per-kind section behavior (`Section.cxx`, outside this excerpt):
the kind-keyed factory combined with the per-kind binary payload codec
(`createSectionObjectOfKind` + `Section::readXclBinBinary`), returning `none`
exactly when the factory returns a null pointer; the
`translateSectionKindStrToKind` name table; and the per-kind
`supportsSectionIndex` capability. -/
structure SectionEnv where
  create : Nat → Option (String → List Nat → XSection)
  translate : String → Option Nat
  supportsIndex : Nat → Bool

/-- The mirrored header record: exactly the twelve fields that
`XclBin::addHeaderMirrorData` stores (note: no length, no action mask, no
reserved bytes, no section count).  The string encode/decode steps
(`FormattedOutput` getters / `XUtil` decoders, outside this excerpt) are
modelled as the identity per the spec. -/
structure HeaderMirror where
  magic : String
  signatureLength : Int
  keyBlock : List Nat
  uniqueId : Nat
  timeStamp : Nat
  featureRomTimeStamp : Nat
  versionMajor : Nat
  versionMinor : Nat
  versionPatch : Nat
  mode : Nat
  featureRomUUID : List Nat
  platformVBNV : String
  xclBinUUID : List Nat
  debugBin : String
deriving Repr, DecidableEq

/-- Model of `XclBin::addHeaderMirrorData`. -/
def addHeaderMirrorData (a : Axlf) : HeaderMirror where
  magic := a.m_magic
  signatureLength := a.m_signature_length
  keyBlock := a.m_keyBlock
  uniqueId := a.m_uniqueId
  timeStamp := a.m_header.m_timeStamp
  featureRomTimeStamp := a.m_header.m_featureRomTimeStamp
  versionMajor := a.m_header.m_versionMajor
  versionMinor := a.m_header.m_versionMinor
  versionPatch := a.m_header.m_versionPatch
  mode := a.m_header.m_mode
  featureRomUUID := a.m_header.rom_uuid
  platformVBNV := a.m_header.m_platformVBNV
  xclBinUUID := a.m_header.uuid
  debugBin := a.m_header.m_debug_bin

/-- One mirrored `section_header` entry: kind, name, offset, size.  The
optional JSON payload child written for JSON-capable kinds is not modelled:
the migrate reader (`readXclBinSection`) never consults it — it re-reads the
payload from the stream at the recorded offset/size. -/
structure SectionMirror where
  kind : Nat
  name : String
  offset : Nat
  size : Nat
deriving Repr, DecidableEq

/-- One top-level entry value of the mirror's JSON tree. -/
inductive MirrorNode where
  | schema (major minor patch : Nat)
  | header (h : HeaderMirror)
  | sectionHeader (s : SectionMirror)
deriving Repr, DecidableEq

/-- The mirror JSON document: an ordered list of keyed top-level entries,
as iterated by `readXclBinaryMirrorImage`. -/
abbrev MirrorTree := List (String × MirrorNode)

/-- The `XCLBIN_MIRROR_DATA_START` sentinel bytes. -/
def MIRROR_DATA_START : List Nat :=
  ("XCLBIN_MIRROR_DATA_START").toList.map Char.toNat

/-- The `XCLBIN_MIRROR_DATA_END` sentinel bytes. -/
def MIRROR_DATA_END : List Nat :=
  ("XCLBIN_MIRROR_DATA_END").toList.map Char.toNat

/-! ## The write path -/

/-- Model of `XclBin::updateUUID`: replace the container UUID with the
freshly generated 16 random bytes (the PRNG output is a parameter). -/
def updateUUID (a : Axlf) (newUuid : List Nat) : Axlf :=
  { a with m_header := { a.m_header with uuid := newUuid } }

/-- Set the total-length header field. -/
def setLength (a : Axlf) (len : Nat) : Axlf :=
  { a with m_header := { a.m_header with m_length := len } }

/-- The populated section-header table: each section's entry carries the
offset computed by the layout loop. -/
def sectionEntries (secs : List XSection) : List SectionHeaderEntry :=
  List.zipWith XSection.toEntry secs (writeOffsets (secs.map (fun s => s.payload.length)))

/-- Serialized section-header table. -/
def tableBytes (secs : List XSection) : List Nat :=
  (sectionEntries secs).flatMap serializeEntry

/-- The mirror tree accumulated during a write: the schema version
(`m_SchemaVersionMirrorWrite = {1, 0, 0}`), then the header mirror (captured
from the in-memory header before the length patch), then one
`section_header` entry per section in order. -/
def mirrorTreeOf (h1 : Axlf) (secs : List XSection) : MirrorTree :=
  (("schema_version"), MirrorNode.schema 1 0 0) ::
    ((("header"), MirrorNode.header (addHeaderMirrorData h1)) ::
      (sectionEntries secs).map (fun e => (("section_header"),
        MirrorNode.sectionHeader
          ⟨e.m_sectionKind, e.m_sectionName, e.m_sectionOffset, e.m_sectionSize⟩)))

/-- The in-memory header after the optional UUID regeneration step of
`writeXclBinBinary`. -/
def writeH1 (st : XclBinState) (bSkipUUIDInsertion : Bool) (newUuid : List Nat) : Axlf :=
  if bSkipUUIDInsertion then st.header else updateUUID st.header newUuid

/-- The sentinel-delimited mirror region appended by
`writeXclBinBinaryMirrorData` (`jprint` stands for
`boost::property_tree::write_json`). -/
def mirrorBytesOf (jprint : MirrorTree → List Nat) (h1 : Axlf) (secs : List XSection) :
    List Nat :=
  MIRROR_DATA_START ++ (jprint (mirrorTreeOf h1 secs) ++ MIRROR_DATA_END)

/-- The file as it stands before the final header rewrite: placeholder
header, table, padded payloads, mirror. -/
def writeFile0 (jprint : MirrorTree → List Nat) (st : XclBinState)
    (bSkipUUIDInsertion : Bool) (newUuid : List Nat) : List Nat :=
  serializeAxlf (writeH1 st bSkipUUIDInsertion newUuid) ++
    (tableBytes st.sections ++
    (payloadRegion (startOffset st.sections.length) st.sections ++
    mirrorBytesOf jprint (writeH1 st bSkipUUIDInsertion newUuid) st.sections))

/-- Model of `XclBin::writeXclBinBinary`: optionally regenerate the UUID,
write the header, the table, the padded payloads and the sentinel-delimited
mirror, then measure the file, patch `m_length` into the in-memory header,
and rewrite the same leading header-sized byte range.  Returns the final
in-memory header together with the produced file bytes. -/
def writeXclBinBinary (jprint : MirrorTree → List Nat) (st : XclBinState)
    (bSkipUUIDInsertion : Bool) (newUuid : List Nat) : Axlf × List Nat :=
  let hFinal := setLength (writeH1 st bSkipUUIDInsertion newUuid)
    (writeFile0 jprint st bSkipUUIDInsertion newUuid).length
  (hFinal, serializeAxlf hFinal ++
    (writeFile0 jprint st bSkipUUIDInsertion newUuid).drop writtenHeaderSize)

/-! ## The binary (non-migrate) read path -/

/-- Byte slice at a recorded (offset, size) coordinate. -/
def sliceBytes (bs : List Nat) (off size : Nat) : List Nat :=
  (bs.drop off).take size

/-- Model of `XclBin::readXclBinBinaryHeader`: read `sizeof(axlf)` bytes from
the start (error if the stream is shorter), then check the magic. -/
def readXclBinBinaryHeaderM (bytes : List Nat) : Except XErr Axlf :=
  if bytes.length < sizeofAxlf then .error .truncatedHeader
  else
    let a := parseAxlf bytes
    if a.m_magic = ("xclbin2") then .ok a else .error .badMagic

/-- Loop body of `XclBin::readXclBinBinarySections` over the listed table
indices: seek to `sizeof(axlf) + i*entry - entry`, read the entry (error if
truncated), ask the factory for the kind — a null factory result skips the
entry silently — and otherwise read the payload at the recorded coordinates
and add the section. -/
def readSectionsFrom (env : SectionEnv) (bytes : List Nat) :
    List Nat → XclBinState → Except XErr XclBinState
  | [], st => .ok st
  | i :: rest, st =>
    if bytes.length < writtenHeaderSize + sizeofSectionHeader * i + sizeofSectionHeader then
      .error .truncatedSectionHeader
    else
      let e := parseEntry (bytes.drop (writtenHeaderSize + sizeofSectionHeader * i))
      match env.create e.m_sectionKind with
      | none => readSectionsFrom env bytes rest st
      | some f =>
        readSectionsFrom env bytes rest
          (addSection st (f e.m_sectionName (sliceBytes bytes e.m_sectionOffset e.m_sectionSize)))

/-- Model of `XclBin::readXclBinBinary` with `_bMigrate = false` on a fresh
container: read the header, then the sections. -/
def readXclBinBinaryM (env : SectionEnv) (bytes : List Nat) : Except XErr XclBinState :=
  match readXclBinBinaryHeaderM bytes with
  | .error e => .error e
  | .ok a =>
    readSectionsFrom env bytes (List.range a.m_header.m_numSections)
      { header := a, sections := [] }

/-! ## The mirror / migration read path -/

/-- Model of `XUtil::findBytesInStream` (outside this excerpt, modelled from
its call sites in `findAndReadMirrorData`): offset, relative to the current
position, of the first occurrence of the pattern; `none` when absent. -/
def findBytes (pat : List Nat) : List Nat → Option Nat
  | [] => if pat.isPrefixOf ([] : List Nat) then some 0 else none
  | b :: rest =>
    if pat.isPrefixOf (b :: rest) then some 0
    else (findBytes pat rest).map (fun i => i + 1)

/-- Model of `XclBin::findAndReadMirrorData`: scan from position 0 for the
start sentinel (error `missingMirrorData` if absent), scan from just past it
for the end sentinel (error `malformedMirrorData` if absent), then parse the
bytes in between as JSON — `jparse` stands for
`boost::property_tree::read_json`, whose parse failures carry a line and a
message, rethrown as an error naming that line. -/
def findAndReadMirrorData (jparse : List Nat → Except (Nat × String) MirrorTree)
    (stream : List Nat) : Except XErr MirrorTree :=
  match findBytes MIRROR_DATA_START stream with
  | none => .error .missingMirrorData
  | some s0 =>
    match findBytes MIRROR_DATA_END (stream.drop (s0 + MIRROR_DATA_START.length)) with
    | none => .error .malformedMirrorData
    | some bufferSize =>
      match jparse (sliceBytes stream (s0 + MIRROR_DATA_START.length) bufferSize) with
      | .error e => .error (.jsonParseError e.1 e.2)
      | .ok t => .ok t

/-- Model of `XclBin::readXclBinHeader`: zero the header, then populate
exactly the mirrored fields.  Total length, action mask, reserved bytes and
section count are not part of the mirror and stay zero. -/
def headerFromMirror (hm : HeaderMirror) : Axlf where
  m_magic := hm.magic
  m_signature_length := hm.signatureLength
  reserved := List.replicate 28 0
  m_keyBlock := hm.keyBlock
  m_uniqueId := hm.uniqueId
  m_header :=
    { m_length := 0
      m_timeStamp := hm.timeStamp
      m_featureRomTimeStamp := hm.featureRomTimeStamp
      m_versionPatch := hm.versionPatch
      m_versionMajor := hm.versionMajor
      m_versionMinor := hm.versionMinor
      m_mode := hm.mode
      m_actionMask := 0
      rom_uuid := hm.featureRomUUID
      m_platformVBNV := hm.platformVBNV
      uuid := hm.xclBinUUID
      m_debug_bin := hm.debugBin
      m_numSections := 0 }

/-- Model of `XclBin::readXclBinSection`: instantiate the factory for the
mirrored kind and re-read the binary payload from the original stream at the
recorded offset/size.  The code does not null-check the factory result and
would dereference a null pointer for an unknown kind; that is modelled as the
`nullSection` error. -/
def readXclBinSectionM (env : SectionEnv) (bytes : List Nat) (sm : SectionMirror) :
    Except XErr XSection :=
  match env.create sm.kind with
  | none => .error .nullSection
  | some f => .ok (f sm.name (sliceBytes bytes sm.offset sm.size))

/-- Model of `XclBin::readXclBinaryMirrorImage`: walk the top-level mirror
entries in order; `schema_version` is ignored, `header` repopulates the
in-memory header, `section_header` reconstructs and adds one section, and any
other key is skipped. -/
def readMirrorImage (env : SectionEnv) (bytes : List Nat) :
    MirrorTree → XclBinState → Except XErr XclBinState
  | [], st => .ok st
  | (key, node) :: rest, st =>
    if key = ("schema_version") then readMirrorImage env bytes rest st
    else if key = ("header") then
      match node with
      | .header hm => readMirrorImage env bytes rest { st with header := headerFromMirror hm }
      | _ => readMirrorImage env bytes rest st
    else if key = ("section_header") then
      match node with
      | .sectionHeader sm =>
        match readXclBinSectionM env bytes sm with
        | .error e => .error e
        | .ok sec => readMirrorImage env bytes rest (addSection st sec)
      | _ => readMirrorImage env bytes rest st
    else readMirrorImage env bytes rest st

/-- Model of `XclBin::readXclBinBinary` with `_bMigrate = true`: locate and
parse the mirror, then rebuild the container from it, reading payload bytes
from the same stream.  `st0` is the fresh container state the call starts
from. -/
def readXclBinBinaryMigrateM (env : SectionEnv)
    (jparse : List Nat → Except (Nat × String) MirrorTree)
    (st0 : XclBinState) (bytes : List Nat) : Except XErr XclBinState :=
  match findAndReadMirrorData jparse bytes with
  | .error e => .error e
  | .ok t => readMirrorImage env bytes t st0

/-- Zero out the leading header-sized byte range of a stream. -/
def zeroHeaderBytes (bytes : List Nat) : List Nat :=
  List.replicate writtenHeaderSize 0 ++ bytes.drop writtenHeaderSize

/-! ## Sentinel-scan lemmas -/

theorem findBytes_none (pat s : List Nat)
    (h : ∀ i, ¬ pat.isPrefixOf (s.drop i) = true) : findBytes pat s = none := by
  induction s with
  | nil =>
    have := h 0
    simp only [List.drop_zero] at this
    simp [findBytes, this]
  | cons b rest ih =>
    have h0 := h 0
    simp only [List.drop_zero] at h0
    simp only [findBytes, if_neg h0]
    rw [ih (fun i => by simpa using h (i + 1))]
    rfl

theorem findBytes_pos (pat s : List Nat) (h : pat.isPrefixOf s = true) :
    findBytes pat s = some 0 := by
  cases s <;> simp [findBytes, h]

theorem findBytes_exact (pat pre rest : List Nat)
    (hhit : pat.isPrefixOf rest = true)
    (hclean : ∀ j < pre.length, ¬ pat.isPrefixOf ((pre ++ rest).drop j) = true) :
    findBytes pat (pre ++ rest) = some pre.length := by
  induction pre with
  | nil =>
    simpa using findBytes_pos pat rest hhit
  | cons b pre2 ih =>
    have h0 := hclean 0 (by simp)
    simp only [List.drop_zero, List.cons_append] at h0
    have step : findBytes pat (b :: (pre2 ++ rest)) =
        (findBytes pat (pre2 ++ rest)).map (fun i => i + 1) := by
      simp only [findBytes, if_neg h0]
    simp only [List.cons_append, step]
    rw [ih (fun j hj => by
      have := hclean (j + 1) (by simpa using hj)
      simpa using this)]
    simp

/-! ## String tokenizing helpers -/

/-- Split a character list at every occurrence of the delimiter
(`boost::split` on one delimiter; an empty input yields one empty token). -/
def splitAllOn (d : Char) : List Char → List (List Char)
  | [] => [[]]
  | c :: cs =>
    if c = d then [] :: splitAllOn d cs
    else
      match splitAllOn d cs with
      | t :: ts => (c :: t) :: ts
      | [] => [[c]]

/-- Join token lists back with the delimiter (inverse of `splitAllOn`). -/
def joinWith (d : Char) : List (List Char) → List Char
  | [] => []
  | [t] => t
  | t :: t2 :: ts => t ++ d :: joinWith d (t2 :: ts)

theorem splitAllOn_ne_nil (d : Char) (l : List Char) : splitAllOn d l ≠ [] := by
  cases l with
  | nil => simp [splitAllOn]
  | cons c cs =>
    simp only [splitAllOn]
    split
    · simp
    · split <;> simp

theorem joinWith_splitAllOn (d : Char) (l : List Char) :
    joinWith d (splitAllOn d l) = l := by
  induction l with
  | nil => rfl
  | cons c cs ih =>
    simp only [splitAllOn]
    split
    · rename_i hc
      subst hc
      obtain ⟨t, ts, hts⟩ : ∃ t ts, splitAllOn c cs = t :: ts := by
        cases h : splitAllOn c cs with
        | nil => exact absurd h (splitAllOn_ne_nil c cs)
        | cons t ts => exact ⟨t, ts, rfl⟩
      rw [hts]
      rw [hts] at ih
      simp [joinWith, ← ih]
    · cases h : splitAllOn d cs with
      | nil => exact absurd h (splitAllOn_ne_nil d cs)
      | cons t ts =>
        rw [h] at ih
        cases ts with
        | nil => simpa [joinWith] using ih
        | cons t2 ts2 => simpa [joinWith] using ih

theorem splitAllOn_push (d : Char) (a r : List Char) (ha : d ∉ a) :
    splitAllOn d (a ++ d :: r) = a :: splitAllOn d r := by
  induction a with
  | nil => simp [splitAllOn]
  | cons c a2 ih =>
    have hc : c ≠ d := by
      intro hcd
      exact ha (by simp [hcd])
    simp only [List.cons_append, splitAllOn, if_neg hc, List.append_eq]
    rw [ih (fun hm => ha (by simp [hm]))]

/-- Token list of a string for a delimiter. -/
def splitTokens (d : Char) (s : String) : List String :=
  (splitAllOn d s.toList).map (fun cs => String.mk cs)

/-- The bounded tokenizing loop shared by `XclBin::getKeyValueComponents` and
`parsePSKernelString`: tokens are collected at each colon until three exist;
once two tokens have been taken the rest of the string — embedded colons
included — becomes the third token. -/
def splitLimit3 (s : String) : List String :=
  match splitAllOn ':' s.toList with
  | t0 :: t1 :: t2 :: rest => [String.mk t0, String.mk t1, String.mk (joinWith ':' (t2 :: rest))]
  | ts => ts.map (fun cs => String.mk cs)

theorem splitLimit3_concat (a b c : List Char) (ha : (':' : Char) ∉ a) (hb : (':' : Char) ∉ b) :
    splitLimit3 (String.mk (a ++ ':' :: (b ++ ':' :: c)))
      = [String.mk a, String.mk b, String.mk c] := by
  unfold splitLimit3
  have h1 : (String.mk (a ++ ':' :: (b ++ ':' :: c))).toList = a ++ ':' :: (b ++ ':' :: c) := rfl
  rw [h1, splitAllOn_push _ _ _ ha, splitAllOn_push _ _ _ hb]
  obtain ⟨t, ts, hts⟩ : ∃ t ts, splitAllOn ':' c = t :: ts := by
    cases h : splitAllOn ':' c with
    | nil => exact absurd h (splitAllOn_ne_nil ':' c)
    | cons t ts => exact ⟨t, ts, rfl⟩
  rw [hts]
  have hj : joinWith ':' (t :: ts) = c := by
    rw [← hts, joinWith_splitAllOn]
  simp [hj]

/-- Model of `std::stoi`: skip whitespace, accept an optional sign, then a
nonempty maximal run of decimal digits (the remainder of the token is
ignored); `none` models the `std::invalid_argument` exception. -/
def digitsToNat (cs : List Char) : Nat :=
  cs.foldl (fun acc c => acc * 10 + (c.toNat - 48)) 0

/-- Integer prefix parse of `std::stoi`. -/
def stoi (s : String) : Option Int :=
  let cs := s.toList.dropWhile (fun c => c = ' ' ∨ c = '\t' ∨ c = '\n' ∨ c = '\r')
  match cs with
  | '-' :: rest =>
    let ds := rest.takeWhile Char.isDigit
    if ds.isEmpty then none else some (-(digitsToNat ds : Int))
  | '+' :: rest =>
    let ds := rest.takeWhile Char.isDigit
    if ds.isEmpty then none else some ((digitsToNat ds : Int))
  | rest =>
    let ds := rest.takeWhile Char.isDigit
    if ds.isEmpty then none else some ((digitsToNat ds : Int))

/-- C truncating cast to `uint8_t`. -/
def toU8 (v : Int) : Nat := (v % (2 ^ 8 : Nat)).toNat

/-- C truncating cast to `uint16_t`. -/
def toU16 (v : Int) : Nat := (v % (2 ^ 16 : Nat)).toNat

/-- C truncating cast to `unsigned int`. -/
def toU32 (v : Int) : Nat := (v % (2 ^ 32 : Nat)).toNat

/-! ## Header version parsing -/

/-- Model of `getVersionMajorMinorPath`: split the version text on `.`;
one token is a bare patch number (major and minor zero), three tokens are a
`major.minor.patch` triple, any other token count is rejected (the `false`
return, surfaced as `formatError`); `stoiFailure` models the exception
`std::stoi` raises on a non-integer token. -/
def getVersionMajorMinorPath (s : String) : Except XErr (Nat × Nat × Nat) :=
  match splitTokens '.' s with
  | [t0] =>
    match stoi t0 with
    | none => .error .stoiFailure
    | some p => .ok (0, 0, toU16 p)
  | [t0, t1, t2] =>
    match stoi t0, stoi t1, stoi t2 with
    | some ma, some mi, some pa => .ok (toU8 ma, toU8 mi, toU16 pa)
    | _, _, _ => .error .stoiFailure
  | _ => .error (.formatError s)

/-! ## Section removal by name -/

/-- Find the first `[` and split around it (models
`find_first_of("[")` + the two `substr` extractions). -/
def breakAtBracket : List Char → Option (List Char × List Char)
  | [] => none
  | c :: cs =>
    if c = '[' then some ([], cs)
    else (breakAtBracket cs).map (fun p => (c :: p.1, p.2))

/-- Remove the first section matching (kind, index name) — the element
`findSection` returns and `removeSection(const Section*)` erases by pointer
identity. -/
def removeFirstMatch (kind : Nat) (idx : String) : List XSection → List XSection
  | [] => []
  | s :: rest =>
    if s.kind = kind ∧ s.indexName = idx then rest
    else s :: removeFirstMatch kind idx rest

/-- Bracket parsing step of `XclBin::removeSection(const std::string&)`:
extract the optional `Name[Index]` suffix; when a `[` is present the string
must end in `]`, otherwise the expected-format error is raised. -/
def parseRemoveArg (s : String) : Except XErr (String × String) :=
  match breakAtBracket s.toList with
  | none => .ok (String.mk s.toList, (""))
  | some p =>
    if s.toList.getLast? = some ']' then .ok (String.mk p.1, String.mk p.2.dropLast)
    else .error (.formatError s)

/-- Model of `XclBin::removeSection(const std::string&)`: parse an optional
`Name[Index]` suffix (format error when a `[` is present but the string does
not end in `]`), translate the section name to a kind, reject requests whose
index usage disagrees with the kind's `supportsSectionIndex` capability, then
remove the first matching section (`missingSection` when there is none). -/
def removeSectionByStr (env : SectionEnv) (st : XclBinState) (sToRemove : String) :
    Except XErr XclBinState :=
  match parseRemoveArg sToRemove with
  | .error e => .error e
  | .ok (sectionName, idxName) =>
    match env.translate sectionName with
    | none => .error (.unknownSectionName sectionName)
    | some eKind =>
      if env.supportsIndex eKind = true ∧ idxName = ("") then
        .error (.indexUsage sectionName)
      else if env.supportsIndex eKind = false ∧ idxName ≠ ("") then
        .error (.indexUsage sectionName)
      else
        match findSection st.sections eKind idxName with
        | none => .error (.missingSection sToRemove)
        | some _ =>
          .ok { header := setNumSections st.header (st.sections.length - 1)
                sections := removeFirstMatch eKind idxName st.sections }

/-! ## Key-value metadata -/

/-- ASCII upper-casing of `boost::to_upper`. -/
def upChars (s : String) : String := String.mk (s.toList.map Char.toUpper)

/-- Model of `XclBin::getKeyValueComponents`: tokenize with the bounded
3-token loop, fail unless exactly three tokens result, upper-case the
domain. -/
def getKeyValueComponents (s : String) : Except XErr (String × String × String) :=
  match splitLimit3 s with
  | [t0, t1, t2] => .ok (upChars t0, t1, t2)
  | _ => .error (.formatError s)

/-- Update the first entry holding the key (the in-place value update of
`setKeyValue`). -/
def kvUpdateFirst (k v : String) : List (String × String) → List (String × String)
  | [] => []
  | (k2, v2) :: rest =>
    if k2 = k then (k2, v) :: rest else (k2, v2) :: kvUpdateFirst k v rest

/-- The `USER` set operation on the key/value list: update in place when the
key exists, append otherwise. -/
def kvSet (l : List (String × String)) (k v : String) : List (String × String) :=
  if l.any (fun e => e.1 == k) then kvUpdateFirst k v l else l ++ [(k, v)]

/-- Erase the first entry holding the key. -/
def kvEraseFirst (k : String) : List (String × String) → List (String × String)
  | [] => []
  | (k2, v2) :: rest =>
    if k2 = k then rest else (k2, v2) :: kvEraseFirst k rest

/-- A fresh `KEYVALUE_METADATA` section, as produced by
`createSectionObjectOfKind(KEYVALUE_METADATA)` (its initial key/value list is
empty; per-kind payload details live outside this excerpt). -/
def freshKeyValueSection : XSection where
  kind := KEYVALUE_METADATA
  name := ("")
  indexName := ("")
  payload := []
  kv := []
  subs := []

/-- Apply the `USER` set to the first `KEYVALUE_METADATA` section in the
collection; `none` when the collection has no such section. -/
def setUserKeyInSections (k v : String) : List XSection → Option (List XSection)
  | [] => none
  | s :: rest =>
    if s.kind = KEYVALUE_METADATA ∧ s.indexName = ("") then
      some ({ s with kv := kvSet s.kv k v } :: rest)
    else (setUserKeyInSections k v rest).map (fun l => s :: l)

/-- The `USER` domain branch of `setKeyValue`: the metadata section is
created on first use, then the key is updated in place or appended. -/
def setUserKey (st : XclBinState) (k v : String) : XclBinState :=
  match setUserKeyInSections k v st.sections with
  | some secs => { st with sections := secs }
  | none => addSection st { freshKeyValueSection with kv := kvSet [] k v }

/-- Strip the dashes from a UUID string (the `std::remove` of `'-'`). -/
def stripDashes (s : String) : String :=
  String.mk (s.toList.filter (fun c => c ≠ '-'))

/-- Decimal or hexadecimal value of one character. -/
def hexDigitVal (c : Char) : Option Nat :=
  if '0' ≤ c ∧ c ≤ '9' then some (c.toNat - 48)
  else if 'a' ≤ c ∧ c ≤ 'f' then some (c.toNat - 87)
  else if 'A' ≤ c ∧ c ≤ 'F' then some (c.toNat - 55)
  else none

/-- Value of a hex digit run. -/
def hexVal : List Char → Option Nat
  | [] => some 0
  | c :: cs =>
    match hexDigitVal c, hexVal cs with
    | some d, some acc => some (acc * 16 + d)
    | _, _ => none

/-- Model of `XUtil::stringToUInt64` (outside this excerpt; per the spec it
decodes decimal or `0x`-prefixed hex numerals). -/
def stringToUInt64 (s : String) : Except XErr Nat :=
  let cs := s.toList
  if (("0x").toList).isPrefixOf cs then
    match hexVal (cs.drop 2).reverse with
    | some v => .ok (v % 2 ^ 64)
    | none => .error (.formatError s)
  else
    let ds := cs.takeWhile Char.isDigit
    if ds.isEmpty ∨ ds.length ≠ cs.length then .error (.formatError s)
    else .ok (digitsToNat ds % 2 ^ 64)

/-- Decode a run of hex digit pairs into bytes; `none` on an odd length or
an invalid digit. -/
def hexPairs : List Char → Option (List Nat)
  | [] => some []
  | [_] => none
  | hi :: lo :: rest =>
    match hexDigitVal hi, hexDigitVal lo with
    | some h, some l =>
      match hexPairs rest with
      | some bs => some ((h * 16 + l) :: bs)
      | none => none
    | _, _ => none

/-- Model of `XUtil::hexStringToBinaryBuffer` into a `w`-byte buffer
(outside this excerpt; per the spec it hex-decodes the string into the fixed
field). -/
def hexDecodeBytes (w : Nat) (s : String) : Except XErr (List Nat) :=
  match hexPairs s.toList with
  | some bs => .ok ((bs.take w) ++ List.replicate (w - bs.length) 0)
  | none => .error (.formatError s)

/-- Device-mode values of the `XCLBIN_MODE` enumeration in `xclbin.h`. -/
def modeOfString (v : String) : Option Nat :=
  if v = ("flat") then some 0
  else if v = ("hw_pr") then some 1
  else if v = ("tandem") then some 2
  else if v = ("tandem_pr") then some 3
  else if v = ("hw_emu") then some 4
  else if v = ("sw_emu") then some 5
  else if v = ("hw_emu_pr") then some 6
  else none

/-- The `action_mask` decode: `|`-separated mask names, only `LOAD_AIE`
(bit 0x1) is known; any other name fails. -/
def actionMaskOf (v : String) : Except XErr Nat :=
  (splitTokens '|' v).foldlM
    (fun acc m => if m = ("LOAD_AIE") then .ok (acc ||| 1) else .error (.unknownKey m)) 0

/-- The `SYS` domain branch of `setKeyValue`: a fixed set of header keys,
each with its own decode rule; an unknown key fails. -/
def setSysKey (st : XclBinState) (k v : String) : Except XErr XclBinState :=
  if k = ("mode") then
    match modeOfString v with
    | some m =>
      .ok { st with header :=
        { st.header with m_header := { st.header.m_header with m_mode := m } } }
    | none => .error (.unknownKey v)
  else if k = ("action_mask") then do
    let am ← actionMaskOf v
    .ok { st with header :=
      { st.header with m_header := { st.header.m_header with m_actionMask := am } } }
  else if k = ("FeatureRomTimestamp") then do
    let n ← stringToUInt64 v
    .ok { st with header :=
      { st.header with m_header := { st.header.m_header with m_featureRomTimeStamp := n } } }
  else if k = ("FeatureRomUUID") then do
    let bs ← hexDecodeBytes 16 (stripDashes v)
    .ok { st with header :=
      { st.header with m_header := { st.header.m_header with rom_uuid := bs } } }
  else if k = ("PlatformVBNV") then
    .ok { st with header :=
      { st.header with m_header := { st.header.m_header with m_platformVBNV := v } } }
  else if k = ("XclbinUUID") then do
    let bs ← hexDecodeBytes 16 (stripDashes v)
    .ok { st with header :=
      { st.header with m_header := { st.header.m_header with uuid := bs } } }
  else .error (.unknownKey k)

/-- Model of `XclBin::setKeyValue`. -/
def setKeyValue (st : XclBinState) (keyValue : String) : Except XErr XclBinState := do
  let parts ← getKeyValueComponents keyValue
  if parts.1 = ("SYS") then setSysKey st parts.2.1 parts.2.2
  else if parts.1 = ("USER") then .ok (setUserKey st parts.2.1 parts.2.2)
  else .error (.unknownKey keyValue)

/-- Apply the `USER` key removal: `none` stands for the `Key not found`
error, raised both when the metadata section is absent and when the key is
not in its list. -/
def removeKeyInSections (k : String) : List XSection → Option (List XSection)
  | [] => none
  | s :: rest =>
    if s.kind = KEYVALUE_METADATA ∧ s.indexName = ("") then
      if s.kv.any (fun e => e.1 == k) then
        some ({ s with kv := kvEraseFirst k s.kv } :: rest)
      else none
    else (removeKeyInSections k rest).map (fun l => s :: l)

/-- Model of `XclBin::removeKey`. -/
def removeKey (st : XclBinState) (k : String) : Except XErr XclBinState :=
  match removeKeyInSections k st.sections with
  | none => .error (.keyNotFound k)
  | some secs => .ok { st with sections := secs }

/-! ## PS-kernel helper -/

/-- Model of `parsePSKernelString`: the bounded 3-token split (only the
first two colons delimit; the path keeps embedded colons), an existence
check on the library path (I/O error naming the path), then the instance
count via `std::stoi`. -/
def parsePSKernelString (fileExists : String → Bool) (encodedString : String) :
    Except XErr (String × Nat × String) :=
  match splitLimit3 encodedString with
  | [t0, t1, t2] =>
    if fileExists t2 = false then .error (.ioError t2)
    else
      match stoi t1 with
      | none => .error .stoiFailure
      | some n => .ok (t0, toU32 n, t2)
  | _ => .error (.formatError encodedString)

/-- Model of `XclBin::addPsKernel`: parse the encoded string, fail when a
`SOFT_KERNEL` section with the symbolic name already exists, then build one
section with a raw `OBJ` sub-section holding the library bytes and a JSON
`METADATA` sub-section holding the generated `soft_kernel_metadata` node.
`fs` models the filesystem (path to content). -/
def addPsKernel (fs : String → Option (List Nat)) (st : XclBinState)
    (encodedString : String) : Except XErr XclBinState :=
  match parsePSKernelString (fun p => (fs p).isSome) encodedString with
  | .error e => .error e
  | .ok (symbolicName, numInstances, pathToLibrary) =>
  match findSection st.sections SOFT_KERNEL symbolicName with
  | some _ => .error (.duplicateSection symbolicName)
  | none =>
    match fs pathToLibrary with
    | none => .error (.ioError pathToLibrary)
    | some libraryBytes =>
      let metadata : PsKernelMeta :=
        { mpo_name := symbolicName
          mpo_version := ("0.0.0")
          mpo_md5_value := ("00000000000000000000000000000000")
          mpo_symbol_name := symbolicName
          m_num_instances := numInstances }
      let sec : XSection :=
        { kind := SOFT_KERNEL
          name := ("")
          indexName := symbolicName
          payload := []
          kv := []
          subs := [(("OBJ"), SubPayload.raw libraryBytes),
                   (("METADATA"), SubPayload.meta metadata)] }
      .ok (addSection st sec)

/-! ## Claim C6: header version-string parsing -/

/-- C6: the header version-string parser accepts a single integer token
(treated as the patch number with major = minor = 0) or a
`major.minor.patch` triple of dot-separated integer tokens, and fails with a
format error for every other token count. -/
theorem claim_C6_version_text :
    (∀ s t0 p, splitTokens '.' s = [t0] → stoi t0 = some p →
      getVersionMajorMinorPath s = .ok (0, 0, toU16 p)) ∧
    (∀ s t0 t1 t2 ma mi pa, splitTokens '.' s = [t0, t1, t2] →
      stoi t0 = some ma → stoi t1 = some mi → stoi t2 = some pa →
      getVersionMajorMinorPath s = .ok (toU8 ma, toU8 mi, toU16 pa)) ∧
    (∀ s, (splitTokens '.' s).length ≠ 1 → (splitTokens '.' s).length ≠ 3 →
      getVersionMajorMinorPath s = .error (.formatError s)) := by
  refine ⟨?_, ?_, ?_⟩
  · intro s t0 p hts hp
    unfold getVersionMajorMinorPath
    rw [hts]
    dsimp only
    rw [hp]
  · intro s t0 t1 t2 ma mi pa hts h0 h1 h2
    unfold getVersionMajorMinorPath
    rw [hts]
    dsimp only
    rw [h0, h1, h2]
  · intro s h1 h3
    unfold getVersionMajorMinorPath
    rcases hts : splitTokens '.' s with _ | ⟨a, _ | ⟨b, _ | ⟨c, _ | ⟨d, tl⟩⟩⟩⟩ <;>
      simp_all

/-- Witness for C6 at concrete version texts. -/
theorem claim_C6_version_text_witness :
    getVersionMajorMinorPath ("123") = .ok (0, 0, 123) ∧
    getVersionMajorMinorPath ("2.1.57") = .ok (2, 1, 57) ∧
    getVersionMajorMinorPath ("1.2") = .error (.formatError ("1.2")) := by
  refine ⟨?_, ?_, ?_⟩
  · exact claim_C6_version_text.1 ("123") ("123") 123 (by decide) (by decide)
  · exact claim_C6_version_text.2.1 ("2.1.57") ("2") ("1") ("57") 2 1 57
      (by decide) (by decide) (by decide) (by decide)
  · exact claim_C6_version_text.2.2 ("1.2") (by decide) (by decide)

/-! ## Claim C5: migrate-mode mirror location errors -/

theorem isPrefixOf_length_le (a b : List Nat) (h : a.isPrefixOf b = true) :
    a.length ≤ b.length := by
  induction a generalizing b with
  | nil => simp
  | cons x xs ih =>
    cases b with
    | nil => simp [List.isPrefixOf] at h
    | cons y ys =>
      simp only [List.isPrefixOf, Bool.and_eq_true] at h
      simpa using ih ys h.2

/-- C5: in migrate mode, a stream with no `XCLBIN_MIRROR_DATA_START`
occurrence fails with the missing-mirror-data error; a stream where the end
sentinel does not occur after the start sentinel fails with the
malformed-mirror-data error; and when both sentinels are found but the bytes
between them do not parse as JSON, the operation fails with a JSON parse
error carrying the parser's line number and message. -/
theorem claim_C5_migrate_errors :
    (∀ jparse stream,
      (∀ i, ¬ MIRROR_DATA_START.isPrefixOf (stream.drop i) = true) →
      findAndReadMirrorData jparse stream = .error .missingMirrorData) ∧
    (∀ jparse stream s0, findBytes MIRROR_DATA_START stream = some s0 →
      (∀ i, ¬ MIRROR_DATA_END.isPrefixOf
        ((stream.drop (s0 + MIRROR_DATA_START.length)).drop i) = true) →
      findAndReadMirrorData jparse stream = .error .malformedMirrorData) ∧
    (∀ jparse stream s0 bufferSize line msg,
      findBytes MIRROR_DATA_START stream = some s0 →
      findBytes MIRROR_DATA_END (stream.drop (s0 + MIRROR_DATA_START.length)) = some bufferSize →
      jparse (sliceBytes stream (s0 + MIRROR_DATA_START.length) bufferSize) =
        .error (line, msg) →
      findAndReadMirrorData jparse stream = .error (.jsonParseError line msg)) := by
  refine ⟨?_, ?_, ?_⟩
  · intro jparse stream habsent
    unfold findAndReadMirrorData
    rw [findBytes_none _ _ habsent]
  · intro jparse stream s0 hs0 habsent
    unfold findAndReadMirrorData
    rw [hs0]
    dsimp only
    rw [findBytes_none _ _ habsent]
  · intro jparse stream s0 bufferSize line msg hs0 hend hparse
    unfold findAndReadMirrorData
    rw [hs0]
    dsimp only
    rw [hend]
    dsimp only
    rw [hparse]

/-- Witness for C5 at concrete streams. -/
theorem claim_C5_migrate_errors_witness :
    findAndReadMirrorData (fun _ => .ok []) [7, 7, 7] = .error .missingMirrorData ∧
    findAndReadMirrorData (fun _ => .ok []) MIRROR_DATA_START = .error .malformedMirrorData ∧
    findAndReadMirrorData (fun _ => .error (5, ("bad token")))
      (MIRROR_DATA_START ++ MIRROR_DATA_END) = .error (.jsonParseError 5 ("bad token")) := by
  refine ⟨?_, ?_, ?_⟩
  · apply claim_C5_migrate_errors.1
    intro i h
    have hlen := isPrefixOf_length_le _ _ h
    have h3 : (List.drop i [7, 7, 7]).length ≤ 3 := by
      simp [List.length_drop]
    have h24 : MIRROR_DATA_START.length = 24 := by decide
    omega
  · apply claim_C5_migrate_errors.2.1 _ _ 0 (by decide)
    intro i h
    have h24 : MIRROR_DATA_START.length = 24 := by decide
    have hnil : MIRROR_DATA_START.drop (0 + MIRROR_DATA_START.length) = [] := by decide
    rw [hnil, List.drop_nil] at h
    exact absurd h (by decide)
  · apply claim_C5_migrate_errors.2.2 _ _ 0 0 5 ("bad token") (by decide) ?_ ?_
    · rw [show (MIRROR_DATA_START ++ MIRROR_DATA_END).drop (0 + MIRROR_DATA_START.length)
        = MIRROR_DATA_END from by decide]
      decide
    · rfl

/-! ## Claim C2: the section layout invariants -/

/-- The length components of a header needed by the file-layout lemmas. -/
def sizeWF (a : Axlf) : Prop :=
  a.reserved.length = 28 ∧ a.m_keyBlock.length = 256 ∧
  a.m_header.rom_uuid.length = 16 ∧ a.m_header.uuid.length = 16

instance (a : Axlf) : Decidable (sizeWF a) := by unfold sizeWF; infer_instance

theorem serializeAxlf_length_of_sizeWF (a : Axlf) (h : sizeWF a) :
    (serializeAxlf a).length = writtenHeaderSize := by
  obtain ⟨hres, hkb, hr, hu⟩ := h
  simp [serializeAxlf, serializeAxlfHeader, intBytes4, hres, hkb, hr, hu, strFix_length,
    writtenHeaderSize, sizeofAxlf, sizeofSectionHeader]

theorem sizeWF_updateUUID (a : Axlf) (u : List Nat) (h : sizeWF a) (hu : u.length = 16) :
    sizeWF (updateUUID a u) := by
  obtain ⟨h1, h2, h3, h4⟩ := h
  exact ⟨h1, h2, h3, hu⟩

theorem sizeWF_setLength (a : Axlf) (n : Nat) (h : sizeWF a) : sizeWF (setLength a n) := h

theorem Axlf.WF.toSizeWF (a : Axlf) (h : a.WF) : sizeWF a := by
  obtain ⟨-, -, -, hres, hkb, -, hh⟩ := h
  obtain ⟨-, -, -, -, -, -, -, -, hr, -, hu, -, -⟩ := hh
  exact ⟨hres.1, hkb.1, hr.1, hu.1⟩

theorem sectionEntries_length (secs : List XSection) :
    (sectionEntries secs).length = secs.length := by
  simp [sectionEntries, writeOffsets, computeOffsets_length]

theorem tableBytes_length (secs : List XSection) :
    (tableBytes secs).length = sizeofSectionHeader * secs.length := by
  unfold tableBytes
  have hgen : ∀ es : List SectionHeaderEntry,
      (es.flatMap serializeEntry).length = sizeofSectionHeader * es.length := by
    intro es
    induction es with
    | nil => simp
    | cons e tl ih =>
      simp only [List.flatMap_cons, List.length_append, serializeEntry_length, ih,
        List.length_cons]
      ring
  rw [hgen, sectionEntries_length]

theorem startOffset_mod8 (n : Nat) : startOffset n % 8 = 0 := by
  simp only [startOffset, writtenHeaderSize, sizeofAxlf, sizeofSectionHeader]
  omega

/-- The file bytes produced by a write decompose into the rewritten header,
the table, the padded payload region, and the sentinel-delimited mirror. -/
theorem write_bytes_decomp (jprint : MirrorTree → List Nat) (st : XclBinState)
    (skip : Bool) (u : List Nat) (hsz : sizeWF st.header) (hu : u.length = 16) :
    (writeXclBinBinary jprint st skip u).2
      = serializeAxlf (writeXclBinBinary jprint st skip u).1 ++
        (tableBytes st.sections ++
        (payloadRegion (startOffset st.sections.length) st.sections ++
        (MIRROR_DATA_START ++
        (jprint (mirrorTreeOf (if skip then st.header else updateUUID st.header u)
          st.sections) ++ MIRROR_DATA_END)))) := by
  have hsz1 : sizeWF (writeH1 st skip u) := by
    unfold writeH1
    cases skip with
    | true => simpa using hsz
    | false => simpa using sizeWF_updateUUID _ _ hsz hu
  unfold writeXclBinBinary
  dsimp only
  congr 1
  unfold writeFile0 mirrorBytesOf
  rw [drop_skip _ _ _ (by rw [serializeAxlf_length_of_sizeWF _ hsz1])]
  rw [serializeAxlf_length_of_sizeWF _ hsz1, Nat.sub_self, List.drop_zero]
  unfold writeH1
  rfl

/-- C2: after a write, the section-header table sits contiguously right after
the container header; every recorded offset is a multiple of 8; consecutive
payloads never overlap (`offset(i+1) ≥ offset(i) + size(i)`, so offsets
strictly increase whenever the earlier payload is non-empty); and
`offset(i) = header_size + table_size + Σ padded sizes of payloads 0..i-1`. -/
theorem claim_C2_layout (jprint : MirrorTree → List Nat) (st : XclBinState)
    (skip : Bool) (u : List Nat) (hsz : sizeWF st.header) (hu : u.length = 16) :
    (fld (writeXclBinBinary jprint st skip u).2 writtenHeaderSize
        (sizeofSectionHeader * st.sections.length) = tableBytes st.sections) ∧
    (∀ o ∈ writeOffsets (st.sections.map (fun s => s.payload.length)), o % 8 = 0) ∧
    (∀ i, i + 1 < st.sections.length →
      (writeOffsets (st.sections.map (fun s => s.payload.length))).getD i 0 +
          (st.sections.map (fun s => s.payload.length)).getD i 0 ≤
        (writeOffsets (st.sections.map (fun s => s.payload.length))).getD (i + 1) 0) ∧
    (∀ i, i + 1 < st.sections.length →
      0 < (st.sections.map (fun s => s.payload.length)).getD i 0 →
      (writeOffsets (st.sections.map (fun s => s.payload.length))).getD i 0 <
        (writeOffsets (st.sections.map (fun s => s.payload.length))).getD (i + 1) 0) ∧
    (∀ i, i < st.sections.length →
      (writeOffsets (st.sections.map (fun s => s.payload.length))).getD i 0
        = writtenHeaderSize + sizeofSectionHeader * st.sections.length +
            padSum ((st.sections.map (fun s => s.payload.length)).take i)) := by
  have hlen : (st.sections.map (fun s => s.payload.length)).length = st.sections.length :=
    List.length_map _ _
  have hstart : startOffset st.sections.length % 8 = 0 := startOffset_mod8 _
  have hbta : bytesToAlign (startOffset st.sections.length) = 0 := by
    simp only [bytesToAlign]
    omega
  have hgetD : ∀ i, i < st.sections.length →
      (writeOffsets (st.sections.map (fun s => s.payload.length))).getD i 0
        = startOffset st.sections.length +
            padSum ((st.sections.map (fun s => s.payload.length)).take i) := by
    intro i hi
    rw [writeOffsets, hlen, computeOffsets_getD _ _ _ (by omega), hbta, Nat.add_zero]
  have hstartval : startOffset st.sections.length
      = writtenHeaderSize + sizeofSectionHeader * st.sections.length := by
    simp only [startOffset]
    ring
  refine ⟨?_, ?_, ?_, ?_, ?_⟩
  · rw [write_bytes_decomp jprint st skip u hsz hu]
    have hf : (serializeAxlf (writeXclBinBinary jprint st skip u).1).length
        = writtenHeaderSize := by
      apply serializeAxlf_length_of_sizeWF
      unfold writeXclBinBinary
      dsimp only
      apply sizeWF_setLength
      cases skip with
      | true => simpa using hsz
      | false => simpa using sizeWF_updateUUID _ _ hsz hu
    rw [fld_skip _ _ _ _ (le_of_eq hf), hf, Nat.sub_self,
      fld_here _ _ _ (tableBytes_length _)]
  · intro o ho
    rw [writeOffsets, computeOffsets_eq] at ho
    obtain ⟨i, hi, rfl⟩ := List.mem_map.1 ho
    rw [hlen, hbta]
    have := padSum_mod8 ((st.sections.map (fun s => s.payload.length)).take i)
    omega
  · intro i hi
    rw [hgetD i (by omega), hgetD (i + 1) (by omega),
      padSum_take_succ _ _ (by omega)]
    simp only [roundUp8]
    omega
  · intro i hi hpos
    rw [hgetD i (by omega), hgetD (i + 1) (by omega),
      padSum_take_succ _ _ (by omega)]
    simp only [roundUp8]
    omega
  · intro i hi
    rw [hgetD i hi, hstartval]

/-- Counterexample to C2 as stated: recorded offsets do not always strictly
increase — with a zero-size payload (legal for a raw `DEBUG_DATA` section)
followed by an 8-byte payload, both sections receive the same offset. -/
theorem claim_C2_layout_counterexample :
    ¬ ((writeOffsets [0, 8]).getD 0 0 < (writeOffsets [0, 8]).getD 1 0) := by
  decide

set_option maxRecDepth 8192 in
/-- Witness for C2 at a concrete two-section container. -/
theorem claim_C2_layout_witness :
    (fld (writeXclBinBinary (fun _ => [])
        ⟨⟨("xclbin2"), -1, List.replicate 28 255, List.replicate 256 255, 7,
          ⟨0, 1, 2, 3, 4, 5, 6, 7, List.replicate 16 9, ("p"), List.replicate 16 8, ("d"), 2⟩⟩,
        [⟨4, ("a"), (""), [1, 2, 3], [], []⟩, ⟨0, ("b"), (""), [7], [], []⟩]⟩
        true (List.replicate 16 0)).2 writtenHeaderSize
      (sizeofSectionHeader * 2)
      = tableBytes [⟨4, ("a"), (""), [1, 2, 3], [], []⟩, ⟨0, ("b"), (""), [7], [], []⟩]) ∧
    (∀ o ∈ writeOffsets [3, 1], o % 8 = 0) ∧
    ((writeOffsets [3, 1]).getD 0 0 + 3 ≤ (writeOffsets [3, 1]).getD 1 0) := by
  have h := claim_C2_layout (fun _ => [])
    ⟨⟨("xclbin2"), -1, List.replicate 28 255, List.replicate 256 255, 7,
      ⟨0, 1, 2, 3, 4, 5, 6, 7, List.replicate 16 9, ("p"), List.replicate 16 8, ("d"), 2⟩⟩,
    [⟨4, ("a"), (""), [1, 2, 3], [], []⟩, ⟨0, ("b"), (""), [7], [], []⟩]⟩
    true (List.replicate 16 0) (by decide) (by decide)
  refine ⟨h.1, ?_, ?_⟩
  · intro o ho
    exact h.2.1 o (by simpa using ho)
  · simpa using h.2.2.1 0 (by decide)

/-! ## Claim C7: section removal by name string -/

theorem mk_toList (s : String) : String.mk s.toList = s := by
  cases s
  rfl

theorem toList_append (s t : String) : (s ++ t).toList = s.toList ++ t.toList := rfl

theorem breakAtBracket_eq_none (cs : List Char) (h : ('[' : Char) ∉ cs) :
    breakAtBracket cs = none := by
  induction cs with
  | nil => rfl
  | cons c cs ih =>
    have hc : c ≠ '[' := fun he => h (by simp [he])
    simp only [breakAtBracket, if_neg hc]
    rw [ih (fun hm => h (by simp [hm]))]
    rfl

theorem breakAtBracket_ne_none (cs : List Char) (h : ('[' : Char) ∈ cs) :
    breakAtBracket cs ≠ none := by
  induction cs with
  | nil => simp at h
  | cons c cs ih =>
    by_cases hc : c = '['
    · simp [breakAtBracket, hc]
    · simp only [breakAtBracket, if_neg hc]
      have hm : ('[' : Char) ∈ cs := by
        rcases List.mem_cons.1 h with he | hm
        · exact absurd he.symm hc
        · exact hm
      cases hb : breakAtBracket cs with
      | none => exact absurd hb (ih hm)
      | some p => simp

theorem breakAtBracket_push (a r : List Char) (ha : ('[' : Char) ∉ a) :
    breakAtBracket (a ++ '[' :: r) = some (a, r) := by
  induction a with
  | nil => simp [breakAtBracket]
  | cons c a2 ih =>
    have hc : c ≠ '[' := fun h => ha (by simp [h])
    simp only [List.cons_append, breakAtBracket, if_neg hc, List.append_eq]
    rw [ih (fun h => ha (by simp [h]))]
    rfl

theorem parseRemoveArg_plain (s : String) (h : ('[' : Char) ∉ s.toList) :
    parseRemoveArg s = .ok (s, ("")) := by
  unfold parseRemoveArg
  rw [breakAtBracket_eq_none _ h]
  dsimp only
  rw [mk_toList]

theorem parseRemoveArg_indexed (name x : String) (h : ('[' : Char) ∉ name.toList) :
    parseRemoveArg (name ++ ("[") ++ x ++ ("]")) = .ok (name, x) := by
  unfold parseRemoveArg
  have htl : (name ++ ("[") ++ x ++ ("]")).toList
      = name.toList ++ '[' :: (x.toList ++ [']']) := by
    simp [toList_append]
  rw [htl, breakAtBracket_push _ _ h]
  have hlast : (name.toList ++ '[' :: (x.toList ++ [']'])).getLast? = some ']' := by
    rw [show name.toList ++ '[' :: (x.toList ++ [']'])
      = (name.toList ++ '[' :: x.toList) ++ [']'] from by simp]
    exact List.getLast?_concat _
  dsimp only
  rw [if_pos hlast, List.dropLast_concat, mk_toList, mk_toList]

theorem parseRemoveArg_malformed (s : String) (hmem : ('[' : Char) ∈ s.toList)
    (hlast : s.toList.getLast? ≠ some ']') :
    parseRemoveArg s = .error (.formatError s) := by
  unfold parseRemoveArg
  cases hb : breakAtBracket s.toList with
  | none => exact absurd hb (breakAtBracket_ne_none _ hmem)
  | some p =>
    dsimp only
    rw [if_neg hlast]

/-- C7: removing a section by name parses an optional `Name[Index]` suffix —
a `[` without a closing `]` at the end is a format error; a request whose
index usage disagrees with the kind's index support fails with the
index-usage error in both directions; otherwise the first section matching
(kind, indexName) is removed, and if none exists the operation fails with
the missing-section error. -/
theorem claim_C7_remove_by_name (env : SectionEnv) (st : XclBinState) :
    (∀ s : String, ('[' : Char) ∈ s.toList → s.toList.getLast? ≠ some ']' →
      removeSectionByStr env st s = .error (.formatError s)) ∧
    (∀ name x k, ('[' : Char) ∉ name.toList → x ≠ ("") →
      env.translate name = some k → env.supportsIndex k = false →
      removeSectionByStr env st (name ++ ("[") ++ x ++ ("]"))
        = .error (.indexUsage name)) ∧
    (∀ s k, ('[' : Char) ∉ s.toList → env.translate s = some k →
      env.supportsIndex k = true →
      removeSectionByStr env st s = .error (.indexUsage s)) ∧
    (∀ s k, ('[' : Char) ∉ s.toList → env.translate s = some k →
      env.supportsIndex k = false → findSection st.sections k ("") = none →
      removeSectionByStr env st s = .error (.missingSection s)) ∧
    (∀ s k sec, ('[' : Char) ∉ s.toList → env.translate s = some k →
      env.supportsIndex k = false → findSection st.sections k ("") = some sec →
      removeSectionByStr env st s
        = .ok ⟨setNumSections st.header (st.sections.length - 1),
               removeFirstMatch k ("") st.sections⟩) ∧
    (∀ name x k, ('[' : Char) ∉ name.toList → x ≠ ("") →
      env.translate name = some k → env.supportsIndex k = true →
      findSection st.sections k x = none →
      removeSectionByStr env st (name ++ ("[") ++ x ++ ("]"))
        = .error (.missingSection (name ++ ("[") ++ x ++ ("]")))) ∧
    (∀ name x k sec, ('[' : Char) ∉ name.toList → x ≠ ("") →
      env.translate name = some k → env.supportsIndex k = true →
      findSection st.sections k x = some sec →
      removeSectionByStr env st (name ++ ("[") ++ x ++ ("]"))
        = .ok ⟨setNumSections st.header (st.sections.length - 1),
               removeFirstMatch k x st.sections⟩) := by
  refine ⟨?_, ?_, ?_, ?_, ?_, ?_, ?_⟩
  · intro s hmem hlast
    unfold removeSectionByStr
    rw [parseRemoveArg_malformed s hmem hlast]
  · intro name x k hnb hx htr hsu
    unfold removeSectionByStr
    rw [parseRemoveArg_indexed name x hnb]
    dsimp only
    rw [htr]
    dsimp only
    rw [if_neg (by simp [hsu]), if_pos (by simp [hsu, hx])]
  · intro s k hnb htr hsu
    unfold removeSectionByStr
    rw [parseRemoveArg_plain s hnb]
    dsimp only
    rw [htr]
    dsimp only
    rw [if_pos (by simp [hsu])]
  · intro s k hnb htr hsu hfind
    unfold removeSectionByStr
    rw [parseRemoveArg_plain s hnb]
    dsimp only
    rw [htr]
    dsimp only
    rw [if_neg (by simp [hsu]), if_neg (by simp [hsu]), hfind]
  · intro s k sec hnb htr hsu hfind
    unfold removeSectionByStr
    rw [parseRemoveArg_plain s hnb]
    dsimp only
    rw [htr]
    dsimp only
    rw [if_neg (by simp [hsu]), if_neg (by simp [hsu]), hfind]
  · intro name x k hnb hx htr hsu hfind
    unfold removeSectionByStr
    rw [parseRemoveArg_indexed name x hnb]
    dsimp only
    rw [htr]
    dsimp only
    rw [if_neg (by simp [hsu, hx]), if_neg (by simp [hsu]), hfind]
  · intro name x k sec hnb hx htr hsu hfind
    unfold removeSectionByStr
    rw [parseRemoveArg_indexed name x hnb]
    dsimp only
    rw [htr]
    dsimp only
    rw [if_neg (by simp [hsu, hx]), if_neg (by simp [hsu]), hfind]

/-- Witness for C7 with a small concrete environment: kind 4 does not
support indexing, kind 23 does. -/
theorem claim_C7_remove_by_name_witness :
    (removeSectionByStr
      ⟨fun _ => none,
       fun n => if n = ("DD") then some 4 else if n = ("SK") then some 23 else none,
       fun k => k = 23⟩
      ⟨default, [⟨4, ("a"), (""), [1], [], []⟩]⟩ ("DD[x]") = .error (.indexUsage ("DD"))) ∧
    (removeSectionByStr
      ⟨fun _ => none,
       fun n => if n = ("DD") then some 4 else if n = ("SK") then some 23 else none,
       fun k => k = 23⟩
      ⟨default, [⟨4, ("a"), (""), [1], [], []⟩]⟩ ("SK") = .error (.indexUsage ("SK"))) ∧
    (removeSectionByStr
      ⟨fun _ => none,
       fun n => if n = ("DD") then some 4 else if n = ("SK") then some 23 else none,
       fun k => k = 23⟩
      ⟨default, [⟨4, ("a"), (""), [1], [], []⟩]⟩ ("DD[") = .error (.formatError ("DD["))) ∧
    (removeSectionByStr
      ⟨fun _ => none,
       fun n => if n = ("DD") then some 4 else if n = ("SK") then some 23 else none,
       fun k => k = 23⟩
      ⟨default, [⟨4, ("a"), (""), [1], [], []⟩]⟩ ("DD")
        = .ok ⟨setNumSections default 0, []⟩) := by
  refine ⟨?_, ?_, ?_, ?_⟩
  · exact (claim_C7_remove_by_name _ _).2.1 ("DD") ("x") 4 (by decide) (by decide)
      (by decide) (by decide)
  · exact (claim_C7_remove_by_name _ _).2.2.1 ("SK") 23 (by decide) (by decide) (by decide)
  · exact (claim_C7_remove_by_name _ _).1 ("DD[") (by decide) (by decide)
  · exact (claim_C7_remove_by_name _ _).2.2.2.2.1 ("DD") 4 ⟨4, ("a"), (""), [1], [], []⟩
      (by decide) (by decide) (by decide) (by decide)

/-! ## Claim C8: idempotent USER key-value set, remove-twice -/

/-- Key/value list of the container's `KEYVALUE_METADATA` section (empty
when the section does not exist). -/
def kvListOf (secs : List XSection) : List (String × String) :=
  match findSection secs KEYVALUE_METADATA ("") with
  | some s => s.kv
  | none => []

theorem kvListOf_nilsec (secs : List XSection)
    (h : findSection secs KEYVALUE_METADATA ("") = none) : kvListOf secs = [] := by
  unfold kvListOf
  rw [h]

theorem setUserKeyInSections_some (k v : String) (secs l : List XSection)
    (h : setUserKeyInSections k v secs = some l) :
    kvListOf l = kvSet (kvListOf secs) k v := by
  induction secs generalizing l with
  | nil => simp [setUserKeyInSections] at h
  | cons s rest ih =>
    by_cases hm : s.kind = KEYVALUE_METADATA ∧ s.indexName = ("")
    · rw [setUserKeyInSections, if_pos hm] at h
      cases h
      unfold kvListOf findSection
      rw [List.find?_cons_of_pos _ (by simpa using hm),
        List.find?_cons_of_pos _ (by simpa using hm)]
    · rw [setUserKeyInSections, if_neg hm] at h
      cases hrec : setUserKeyInSections k v rest with
      | none =>
        rw [hrec] at h
        exact Option.noConfusion h
      | some l2 =>
        rw [hrec] at h
        rw [show Option.map (fun l => s :: l) (some l2) = some (s :: l2) from rfl] at h
        injection h with h2
        subst h2
        unfold kvListOf findSection
        rw [List.find?_cons_of_neg _ (by simpa using hm),
          List.find?_cons_of_neg _ (by simpa using hm)]
        exact ih l2 hrec

theorem setUserKeyInSections_none (k v : String) (secs : List XSection)
    (h : setUserKeyInSections k v secs = none) :
    findSection secs KEYVALUE_METADATA ("") = none := by
  induction secs with
  | nil => rfl
  | cons s rest ih =>
    by_cases hm : s.kind = KEYVALUE_METADATA ∧ s.indexName = ("")
    · rw [setUserKeyInSections, if_pos hm] at h
      simp at h
    · rw [setUserKeyInSections, if_neg hm] at h
      unfold findSection
      rw [List.find?_cons_of_neg _ (by simpa using hm)]
      cases hrec : setUserKeyInSections k v rest with
      | none => exact ih hrec
      | some l2 => rw [hrec] at h; simp at h

theorem kvListOf_append_fresh (secs : List XSection) (nsec : XSection)
    (hn : nsec.kind = KEYVALUE_METADATA ∧ nsec.indexName = (""))
    (h : findSection secs KEYVALUE_METADATA ("") = none) :
    kvListOf (secs ++ [nsec]) = nsec.kv := by
  induction secs with
  | nil =>
    unfold kvListOf findSection
    simp only [List.nil_append]
    rw [List.find?_cons_of_pos _ (by simpa using hn)]
  | cons s rest ih =>
    unfold findSection at h
    by_cases hm : s.kind = KEYVALUE_METADATA ∧ s.indexName = ("")
    · rw [List.find?_cons_of_pos _ (by simpa using hm)] at h
      simp at h
    · rw [List.find?_cons_of_neg _ (by simpa using hm)] at h
      unfold kvListOf findSection
      rw [List.cons_append, List.find?_cons_of_neg _ (by simpa using hm)]
      exact ih h

theorem kvListOf_setUserKey (st : XclBinState) (k v : String) :
    kvListOf (setUserKey st k v).sections = kvSet (kvListOf st.sections) k v := by
  unfold setUserKey
  cases h : setUserKeyInSections k v st.sections with
  | some l => exact setUserKeyInSections_some k v st.sections l h
  | none =>
    have hfind := setUserKeyInSections_none k v st.sections h
    dsimp only [addSection]
    rw [kvListOf_append_fresh _ _ (by constructor <;> rfl) hfind,
      kvListOf_nilsec _ hfind]

theorem removeKeyInSections_none (k : String) (secs : List XSection)
    (h : (kvListOf secs).any (fun e => e.1 == k) = false) :
    removeKeyInSections k secs = none := by
  induction secs with
  | nil => rfl
  | cons s rest ih =>
    by_cases hm : s.kind = KEYVALUE_METADATA ∧ s.indexName = ("")
    · have hkv : kvListOf (s :: rest) = s.kv := by
        unfold kvListOf findSection
        rw [List.find?_cons_of_pos _ (by simpa using hm)]
      rw [hkv] at h
      rw [removeKeyInSections, if_pos hm, if_neg (by simp [h])]
    · have hkv : kvListOf (s :: rest) = kvListOf rest := by
        unfold kvListOf findSection
        rw [List.find?_cons_of_neg _ (by simpa using hm)]
      rw [hkv] at h
      rw [removeKeyInSections, if_neg hm, ih h]
      rfl

theorem removeKeyInSections_some (k : String) (secs : List XSection)
    (h : (kvListOf secs).any (fun e => e.1 == k) = true) :
    ∃ l, removeKeyInSections k secs = some l ∧
      kvListOf l = kvEraseFirst k (kvListOf secs) := by
  induction secs with
  | nil => simp [kvListOf, findSection] at h
  | cons s rest ih =>
    by_cases hm : s.kind = KEYVALUE_METADATA ∧ s.indexName = ("")
    · have hkv : kvListOf (s :: rest) = s.kv := by
        unfold kvListOf findSection
        rw [List.find?_cons_of_pos _ (by simpa using hm)]
      rw [hkv] at h ⊢
      refine ⟨{ s with kv := kvEraseFirst k s.kv } :: rest, ?_, ?_⟩
      · rw [removeKeyInSections, if_pos hm, if_pos (by simp [h])]
      · unfold kvListOf findSection
        rw [List.find?_cons_of_pos _ (by simpa using hm)]
    · have hkv : kvListOf (s :: rest) = kvListOf rest := by
        unfold kvListOf findSection
        rw [List.find?_cons_of_neg _ (by simpa using hm)]
      rw [hkv] at h ⊢
      obtain ⟨l2, hl2, hkv2⟩ := ih h
      refine ⟨s :: l2, ?_, ?_⟩
      · rw [removeKeyInSections, if_neg hm, hl2]
        rfl
      · unfold kvListOf findSection
        rw [List.find?_cons_of_neg _ (by simpa using hm)]
        exact hkv2

theorem filter_eq_nil_of_any_false (l : List (String × String)) (k : String)
    (h : l.any (fun e => e.1 == k) = false) :
    l.filter (fun e => e.1 == k) = [] := by
  induction l with
  | nil => rfl
  | cons e rest ih =>
    simp only [List.any_cons, Bool.or_eq_false_iff] at h
    rw [List.filter_cons_of_neg (by simp [h.1]), ih h.2]

theorem filter_kvSet (l : List (String × String)) (k v : String)
    (h : (l.filter (fun e => e.1 == k)).length ≤ 1) :
    (kvSet l k v).filter (fun e => e.1 == k) = [(k, v)] := by
  unfold kvSet
  by_cases hany : l.any (fun e => e.1 == k) = true
  · rw [if_pos hany]
    induction l with
    | nil => simp at hany
    | cons e rest ih =>
      obtain ⟨k2, v2⟩ := e
      by_cases hk2 : k2 = k
      · subst hk2
        rw [kvUpdateFirst, if_pos rfl]
        rw [List.filter_cons_of_pos (by simp)] at h ⊢
        have hrest : rest.filter (fun e => e.1 == k2) = [] := by
          cases hf : rest.filter (fun e => e.1 == k2) with
          | nil => rfl
          | cons a tl =>
            rw [hf] at h
            simp at h
        rw [hrest]
      · rw [kvUpdateFirst, if_neg hk2]
        rw [List.filter_cons_of_neg (by simp [hk2])] at h ⊢
        have hany2 : rest.any (fun e => e.1 == k) = true := by
          simp only [List.any_cons] at hany
          rcases Bool.or_eq_true_iff.1 hany with h1 | h2
          · exact absurd (by simpa using h1) hk2
          · exact h2
        exact ih h hany2
  · rw [if_neg hany]
    rw [List.filter_append, filter_eq_nil_of_any_false l k (Bool.eq_false_iff.mpr hany)]
    simp

theorem filter_kvEraseFirst (l : List (String × String)) (k : String)
    (h : (l.filter (fun e => e.1 == k)).length ≤ 1) :
    (kvEraseFirst k l).filter (fun e => e.1 == k) = [] := by
  induction l with
  | nil => rfl
  | cons e rest ih =>
    obtain ⟨k2, v2⟩ := e
    by_cases hk2 : k2 = k
    · subst hk2
      rw [kvEraseFirst, if_pos rfl]
      rw [List.filter_cons_of_pos (by simp)] at h
      cases hf : rest.filter (fun e => e.1 == k2) with
      | nil => rfl
      | cons a tl =>
        rw [hf] at h
        simp at h
    · rw [kvEraseFirst, if_neg hk2]
      rw [List.filter_cons_of_neg (by simp [hk2])] at h ⊢
      exact ih h

theorem any_of_filter_cons (l : List (String × String)) (k : String) (x : String × String)
    (tl : List (String × String)) (h : l.filter (fun e => e.1 == k) = x :: tl) :
    l.any (fun e => e.1 == k) = true := by
  induction l with
  | nil => simp at h
  | cons e rest ih =>
    by_cases he : (e.1 == k) = true
    · simp [List.any_cons, he]
    · rw [List.filter_cons_of_neg (by simpa using he)] at h
      simp [List.any_cons, ih h]

theorem filter_nil_any_false (l : List (String × String)) (k : String)
    (h : l.filter (fun e => e.1 == k) = []) : l.any (fun e => e.1 == k) = false := by
  induction l with
  | nil => rfl
  | cons e rest ih =>
    by_cases he : (e.1 == k) = true
    · rw [List.filter_cons, if_pos he] at h
      exact absurd h (by simp)
    · rw [List.filter_cons, if_neg he] at h
      simp [List.any_cons, ih h, he]

theorem getKVC_user (k v : String) (hk : (':' : Char) ∉ k.toList) :
    getKeyValueComponents (("USER:") ++ k ++ (":") ++ v) = .ok (("USER"), k, v) := by
  unfold getKeyValueComponents
  have hcolon : ((":") : String).toList = [':'] := by decide
  have huser : (("USER:") : String).toList = (("USER") : String).toList ++ [':'] := by decide
  have hs : (("USER:") ++ k ++ (":") ++ v)
      = String.mk ((("USER") : String).toList ++ ':' :: (k.toList ++ ':' :: v.toList)) := by
    rw [← mk_toList (("USER:") ++ k ++ (":") ++ v)]
    congr 1
    simp [toList_append, huser, hcolon]
  rw [hs, splitLimit3_concat _ _ _ (by decide) (by simpa using hk)]
  dsimp only
  rw [mk_toList, mk_toList, mk_toList]
  rw [show upChars (("USER") : String) = ("USER") from by decide]

theorem setKeyValue_user (st : XclBinState) (k v : String)
    (hk : (':' : Char) ∉ k.toList) :
    setKeyValue st (("USER:") ++ k ++ (":") ++ v) = .ok (setUserKey st k v) := by
  unfold setKeyValue
  rw [getKVC_user k v hk]
  rfl

/-- C8: for a key `k` (with the colon-free spelling the `USER:k:v` syntax
requires) on a container whose key/value metadata holds at most one entry for
`k`, setting `USER:k:v1` and then `USER:k:v2` leaves exactly one entry for
`k`, holding `v2` (the section is created on first use and an existing key is
updated in place); `removeKey k` then succeeds, and a second `removeKey k`
fails with the key-not-found error. -/
theorem claim_C8_user_key_value (st : XclBinState) (k v1 v2 : String)
    (hk : (':' : Char) ∉ k.toList)
    (hcount : ((kvListOf st.sections).filter (fun e => e.1 == k)).length ≤ 1) :
    ∃ st1 st2 st3,
      setKeyValue st (("USER:") ++ k ++ (":") ++ v1) = .ok st1 ∧
      setKeyValue st1 (("USER:") ++ k ++ (":") ++ v2) = .ok st2 ∧
      (kvListOf st2.sections).filter (fun e => e.1 == k) = [(k, v2)] ∧
      removeKey st2 k = .ok st3 ∧
      removeKey st3 k = .error (.keyNotFound k) := by
  refine ⟨setUserKey st k v1, setUserKey (setUserKey st k v1) k v2, ?_⟩
  have h1 : kvListOf (setUserKey st k v1).sections = kvSet (kvListOf st.sections) k v1 :=
    kvListOf_setUserKey st k v1
  have hf1 : (kvListOf (setUserKey st k v1).sections).filter (fun e => e.1 == k)
      = [(k, v1)] := by
    rw [h1]
    exact filter_kvSet _ k v1 hcount
  have h2 : kvListOf (setUserKey (setUserKey st k v1) k v2).sections
      = kvSet (kvListOf (setUserKey st k v1).sections) k v2 :=
    kvListOf_setUserKey _ k v2
  have hf2 : (kvListOf (setUserKey (setUserKey st k v1) k v2).sections).filter
      (fun e => e.1 == k) = [(k, v2)] := by
    rw [h2]
    exact filter_kvSet _ k v2 (by rw [hf1]; simp)
  have hany2 : (kvListOf (setUserKey (setUserKey st k v1) k v2).sections).any
      (fun e => e.1 == k) = true :=
    any_of_filter_cons _ k _ _ hf2
  obtain ⟨l3, hl3, hkv3⟩ := removeKeyInSections_some k _ hany2
  refine ⟨{ setUserKey (setUserKey st k v1) k v2 with sections := l3 },
    setKeyValue_user st k v1 hk, setKeyValue_user _ k v2 hk, hf2, ?_, ?_⟩
  · unfold removeKey
    rw [hl3]
  · unfold removeKey
    rw [removeKeyInSections_none k l3 ?_]
    have hfe : (kvListOf l3).filter (fun e => e.1 == k) = [] := by
      rw [hkv3]
      exact filter_kvEraseFirst _ k (by rw [hf2]; simp)
    exact filter_nil_any_false _ k hfe

/-- Witness for C8 at a concrete container and key. -/
theorem claim_C8_user_key_value_witness :
    ∃ st1 st2 st3,
      setKeyValue ⟨default, []⟩ (("USER:") ++ ("color") ++ (":") ++ ("red")) = .ok st1 ∧
      setKeyValue st1 (("USER:") ++ ("color") ++ (":") ++ ("blue")) = .ok st2 ∧
      (kvListOf st2.sections).filter (fun e => e.1 == ("color")) = [(("color"), ("blue"))] ∧
      removeKey st2 ("color") = .ok st3 ∧
      removeKey st3 ("color") = .error (.keyNotFound ("color")) :=
  claim_C8_user_key_value ⟨default, []⟩ ("color") ("red") ("blue")
    (by decide) (by decide)

/-! ## Claim C9: the PS-kernel helper -/

theorem splitLimit3_strings (a b c : String) (ha : (':' : Char) ∉ a.toList)
    (hb : (':' : Char) ∉ b.toList) :
    splitLimit3 (a ++ (":") ++ b ++ (":") ++ c) = [a, b, c] := by
  have hcolon : ((":") : String).toList = [':'] := by decide
  have hs : (a ++ (":") ++ b ++ (":") ++ c)
      = String.mk (a.toList ++ ':' :: (b.toList ++ ':' :: c.toList)) := by
    rw [← mk_toList (a ++ (":") ++ b ++ (":") ++ c)]
    congr 1
    simp [toList_append, hcolon]
  rw [hs, splitLimit3_concat _ _ _ ha hb, mk_toList, mk_toList, mk_toList]

/-- C9: `addPsKernel` parses `symbol:instance_count:library_path` where only
the first two colons delimit (the path keeps embedded colons); a missing
library file is an I/O error naming the path; an existing `SOFT_KERNEL`
section with the same symbolic name is a duplicate error; otherwise exactly
one `SOFT_KERNEL` section is appended, carrying a raw `OBJ` sub-section with
the library bytes and a JSON `METADATA` sub-section whose
`m_num_instances` is the parsed count and whose `mpo_symbol_name` is the
parsed symbol. -/
theorem claim_C9_add_ps_kernel (fs : String → Option (List Nat)) (st : XclBinState)
    (sym cnt path : String) (hsym : (':' : Char) ∉ sym.toList)
    (hcnt : (':' : Char) ∉ cnt.toList) :
    (fs path = none →
      addPsKernel fs st (sym ++ (":") ++ cnt ++ (":") ++ path) = .error (.ioError path)) ∧
    (∀ n lib sec, fs path = some lib → stoi cnt = some n →
      findSection st.sections SOFT_KERNEL sym = some sec →
      addPsKernel fs st (sym ++ (":") ++ cnt ++ (":") ++ path)
        = .error (.duplicateSection sym)) ∧
    (∀ n lib, fs path = some lib → stoi cnt = some n →
      findSection st.sections SOFT_KERNEL sym = none →
      addPsKernel fs st (sym ++ (":") ++ cnt ++ (":") ++ path)
        = .ok (addSection st
            ⟨SOFT_KERNEL, (""), sym, [], [],
             [(("OBJ"), SubPayload.raw lib),
              (("METADATA"), SubPayload.meta
                ⟨sym, ("0.0.0"), ("00000000000000000000000000000000"), sym, toU32 n⟩)]⟩)) := by
  refine ⟨?_, ?_, ?_⟩
  · intro hnone
    unfold addPsKernel parsePSKernelString
    rw [splitLimit3_strings sym cnt path hsym hcnt]
    dsimp only
    rw [if_pos (by simp [hnone])]
  · intro n lib sec hlib hstoi hfind
    unfold addPsKernel parsePSKernelString
    rw [splitLimit3_strings sym cnt path hsym hcnt]
    dsimp only
    rw [if_neg (by simp [hlib]), hstoi]
    dsimp only
    rw [hfind]
  · intro n lib hlib hstoi hfind
    unfold addPsKernel parsePSKernelString
    rw [splitLimit3_strings sym cnt path hsym hcnt]
    dsimp only
    rw [if_neg (by simp [hlib]), hstoi]
    dsimp only
    rw [hfind]
    dsimp only
    rw [hlib]

/-- Witness for C9: a missing library fails naming the path; a present
library yields the `SOFT_KERNEL` section with its `OBJ` and `METADATA`
sub-sections. -/
theorem claim_C9_add_ps_kernel_witness :
    (addPsKernel (fun _ => none) ⟨default, []⟩
      (("foo") ++ (":") ++ ("3") ++ (":") ++ ("./lib.so")) = .error (.ioError ("./lib.so"))) ∧
    (addPsKernel (fun p => if p = ("./lib.so") then some [9, 8, 7] else none) ⟨default, []⟩
      (("foo") ++ (":") ++ ("3") ++ (":") ++ ("./lib.so"))
        = .ok (addSection ⟨default, []⟩
            ⟨SOFT_KERNEL, (""), ("foo"), [], [],
             [(("OBJ"), SubPayload.raw [9, 8, 7]),
              (("METADATA"), SubPayload.meta
                ⟨("foo"), ("0.0.0"), ("00000000000000000000000000000000"), ("foo"), 3⟩)]⟩)) := by
  constructor
  · exact (claim_C9_add_ps_kernel (fun _ => none) ⟨default, []⟩ ("foo") ("3") ("./lib.so")
      (by decide) (by decide)).1 rfl
  · have h := (claim_C9_add_ps_kernel
      (fun p => if p = ("./lib.so") then some [9, 8, 7] else none) ⟨default, []⟩
      ("foo") ("3") ("./lib.so") (by decide) (by decide)).2.2 3 [9, 8, 7]
      (by decide) (by decide) rfl
    rw [show toU32 3 = 3 from by decide] at h
    exact h

/-! ## Read-back infrastructure shared by the round-trip claims -/

/-- Well-formedness of one in-memory section for the write path: the kind
fits its u32 slot, the name fits the 16-byte name field, and the payload is
made of bytes. -/
def XSection.WFsec (s : XSection) : Prop :=
  s.kind < 2 ^ 32 ∧ strWF 16 s.name ∧ ∀ b ∈ s.payload, b < 256

instance (s : XSection) : Decidable s.WFsec := by unfold XSection.WFsec; infer_instance

/-- Well-formedness of an in-memory container: well-formed header, well-formed
sections, and the `m_numSections` invariant `addSection` maintains. -/
def WFstate (st : XclBinState) : Prop :=
  st.header.WF ∧ (∀ s ∈ st.sections, s.WFsec) ∧
  st.header.m_header.m_numSections = st.sections.length

instance (st : XclBinState) : Decidable (WFstate st) := by
  unfold WFstate; infer_instance

/-- The section the factory/codec pair produces for an in-memory section's
table coordinates, `none` when the factory does not recognize the kind. -/
def createdSection (env : SectionEnv) (s : XSection) : Option XSection :=
  (env.create s.kind).map (fun f => f s.name s.payload)

/-- The sections a binary read reconstructs: the recognized ones, in order. -/
def pickSections (env : SectionEnv) (secs : List XSection) : List XSection :=
  secs.filterMap (createdSection env)

theorem updateUUID_WF (a : Axlf) (u : List Nat) (h : a.WF) (hu : bytesWF 16 u) :
    (updateUUID a u).WF := by
  obtain ⟨h1, h2, h3, h4, h5, h6, g1, g2, g3, g4, g5, g6, g7, g8, hr, hp, huu, hd, g9⟩ := h
  exact ⟨h1, h2, h3, h4, h5, h6, g1, g2, g3, g4, g5, g6, g7, g8, hr, hp, hu, hd, g9⟩

theorem setLength_WF (a : Axlf) (n : Nat) (h : a.WF) (hn : n < 2 ^ 64) :
    (setLength a n).WF := by
  obtain ⟨h1, h2, h3, h4, h5, h6, g1, g2, g3, g4, g5, g6, g7, g8, hr, hp, huu, hd, g9⟩ := h
  exact ⟨h1, h2, h3, h4, h5, h6, hn, g2, g3, g4, g5, g6, g7, g8, hr, hp, huu, hd, g9⟩

theorem writeH1_WF (st : XclBinState) (skip : Bool) (u : List Nat)
    (h : st.header.WF) (hu : bytesWF 16 u) : (writeH1 st skip u).WF := by
  unfold writeH1
  cases skip with
  | true => simpa using h
  | false => simpa using updateUUID_WF _ _ h hu

theorem mirrorBytesOf_length (jprint : MirrorTree → List Nat) (h1 : Axlf)
    (secs : List XSection) :
    (mirrorBytesOf jprint h1 secs).length = 46 + (jprint (mirrorTreeOf h1 secs)).length := by
  simp only [mirrorBytesOf, List.length_append]
  rw [show MIRROR_DATA_START.length = 24 from by decide,
    show MIRROR_DATA_END.length = 22 from by decide]
  ring

theorem writeFile0_length (jprint : MirrorTree → List Nat) (st : XclBinState)
    (skip : Bool) (u : List Nat) (hsz : sizeWF st.header) (hu : u.length = 16) :
    (writeFile0 jprint st skip u).length
      = endOffset (startOffset st.sections.length)
          (st.sections.map (fun s => s.payload.length))
        + (mirrorBytesOf jprint (writeH1 st skip u) st.sections).length := by
  have hsz1 : sizeWF (writeH1 st skip u) := by
    unfold writeH1
    cases skip with
    | true => simpa using hsz
    | false => simpa using sizeWF_updateUUID _ _ hsz hu
  have hreg := payloadRegion_length st.sections (startOffset st.sections.length)
  simp only [writeFile0, List.length_append, serializeAxlf_length_of_sizeWF _ hsz1,
    tableBytes_length]
  have hso : startOffset st.sections.length
      = writtenHeaderSize + sizeofSectionHeader * st.sections.length := by
    simp only [startOffset]
    ring
  omega

theorem write_bytes_length (jprint : MirrorTree → List Nat) (st : XclBinState)
    (skip : Bool) (u : List Nat) (hsz : sizeWF st.header) (hu : u.length = 16) :
    (writeXclBinBinary jprint st skip u).2.length = (writeFile0 jprint st skip u).length := by
  have hsz1 : sizeWF (writeH1 st skip u) := by
    unfold writeH1
    cases skip with
    | true => simpa using hsz
    | false => simpa using sizeWF_updateUUID _ _ hsz hu
  have hf0 : writtenHeaderSize ≤ (writeFile0 jprint st skip u).length := by
    simp only [writeFile0, List.length_append, serializeAxlf_length_of_sizeWF _ hsz1]
    omega
  have hfin : sizeWF (writeXclBinBinary jprint st skip u).1 := by
    unfold writeXclBinBinary
    exact sizeWF_setLength _ _ hsz1
  simp only [writeXclBinBinary, List.length_append, List.length_drop]
  rw [serializeAxlf_length_of_sizeWF _ (sizeWF_setLength _ _ hsz1)]
  omega

theorem write_m_length (jprint : MirrorTree → List Nat) (st : XclBinState)
    (skip : Bool) (u : List Nat) (hsz : sizeWF st.header) (hu : u.length = 16) :
    (writeXclBinBinary jprint st skip u).1.m_header.m_length
      = (writeXclBinBinary jprint st skip u).2.length := by
  rw [write_bytes_length jprint st skip u hsz hu]
  rfl

theorem writeFile0_ge (jprint : MirrorTree → List Nat) (st : XclBinState)
    (skip : Bool) (u : List Nat) (hsz : sizeWF st.header) (hu : u.length = 16) :
    writtenHeaderSize + 46 ≤ (writeFile0 jprint st skip u).length := by
  rw [writeFile0_length jprint st skip u hsz hu, mirrorBytesOf_length]
  have := endOffset_ge (st.sections.map (fun s => s.payload.length))
    (startOffset st.sections.length)
  have hso : writtenHeaderSize ≤ startOffset st.sections.length := by
    simp only [startOffset]
    omega
  omega

/-- The header a non-migrate read recovers from a freshly written file is
exactly the final in-memory header (with the patched length). -/
theorem read_header_of_write (jprint : MirrorTree → List Nat) (st : XclBinState)
    (skip : Bool) (u : List Nat) (hWF : st.header.WF) (hu : bytesWF 16 u)
    (hlen : (writeFile0 jprint st skip u).length < 2 ^ 64) :
    readXclBinBinaryHeaderM ((writeXclBinBinary jprint st skip u).2)
      = .ok ((writeXclBinBinary jprint st skip u).1) := by
  have hsz : sizeWF st.header := Axlf.WF.toSizeWF _ hWF
  have hfinWF : (writeXclBinBinary jprint st skip u).1.WF := by
    unfold writeXclBinBinary
    exact setLength_WF _ _ (writeH1_WF st skip u hWF hu) hlen
  have hshape : (writeXclBinBinary jprint st skip u).2
      = serializeAxlf ((writeXclBinBinary jprint st skip u).1) ++
        (writeFile0 jprint st skip u).drop writtenHeaderSize := rfl
  have hparse : parseAxlf ((writeXclBinBinary jprint st skip u).2)
      = (writeXclBinBinary jprint st skip u).1 := by
    rw [hshape]
    exact parseAxlf_serialize _ hfinWF _
  unfold readXclBinBinaryHeaderM
  have hge := writeFile0_ge jprint st skip u hsz hu.1
  have hblen := write_bytes_length jprint st skip u hsz hu.1
  rw [if_neg (by
    simp only [not_lt, sizeofAxlf]
    rw [hblen]
    simp only [writtenHeaderSize, sizeofAxlf, sizeofSectionHeader] at hge
    omega)]
  rw [hparse, if_pos hfinWF.1]

instance : Inhabited SectionHeaderEntry := ⟨⟨0, (""), 0, 0⟩⟩

theorem offset_size_le_endOffset (sizes : List Nat) (cur i : Nat) (h : i < sizes.length) :
    (computeOffsets cur sizes).getD i 0 + sizes.getD i 0 ≤ endOffset cur sizes := by
  induction sizes generalizing cur i with
  | nil => simp at h
  | cons sz rest ih =>
    cases i with
    | zero =>
      simp only [computeOffsets, List.getD_cons_zero, endOffset]
      exact le_trans (by omega) (endOffset_ge rest _)
    | succ i =>
      simp only [computeOffsets, List.getD_cons_succ, endOffset]
      exact ih _ _ (by simpa using h)

theorem tableBytes_drop (es : List SectionHeaderEntry) (tail : List Nat) (i : Nat)
    (h : i < es.length) :
    ∃ r, (es.flatMap serializeEntry ++ tail).drop (sizeofSectionHeader * i)
      = serializeEntry (es.getD i default) ++ r := by
  induction es generalizing tail i with
  | nil => simp at h
  | cons e tl ih =>
    cases i with
    | zero =>
      refine ⟨tl.flatMap serializeEntry ++ tail, ?_⟩
      simp [List.flatMap_cons, List.append_assoc]
    | succ i =>
      have hstep : (serializeEntry e).length ≤ sizeofSectionHeader * (i + 1) := by
        rw [serializeEntry_length]
        simp only [sizeofSectionHeader]
        omega
      rw [List.flatMap_cons, List.append_assoc,
        drop_skip _ _ _ hstep, serializeEntry_length]
      have harith : sizeofSectionHeader * (i + 1) - sizeofSectionHeader
          = sizeofSectionHeader * i := by
        simp only [sizeofSectionHeader]
        omega
      rw [harith, List.getD_cons_succ]
      exact ih tail i (by simpa using h)

theorem zipWith_getD (secs : List XSection) (offs : List Nat) (i : Nat)
    (hl : offs.length = secs.length) (h : i < secs.length) :
    (List.zipWith XSection.toEntry secs offs).getD i default
      = (secs.getD i default).toEntry (offs.getD i 0) := by
  have hz : i < (List.zipWith XSection.toEntry secs offs).length := by
    simp [List.length_zipWith, hl]
    omega
  rw [List.getD_eq_getElem _ _ hz, List.getElem_zipWith,
    List.getD_eq_getElem _ _ h, List.getD_eq_getElem _ _ (by omega)]

theorem payloadRegion_slice_tail (secs : List XSection) (cur i : Nat) (tail : List Nat)
    (h : i < secs.length) :
    fld (payloadRegion cur secs ++ tail)
        ((computeOffsets cur (secs.map (fun s => s.payload.length))).getD i 0 - cur)
        ((secs.getD i default).payload.length)
      = (secs.getD i default).payload := by
  have hlen : (secs.map (fun s => s.payload.length)).length = secs.length :=
    List.length_map _ _
  have hoff := computeOffsets_getD (secs.map (fun s => s.payload.length)) cur i (by omega)
  have hbound := offset_size_le_endOffset (secs.map (fun s => s.payload.length)) cur i
    (by omega)
  have hreg := payloadRegion_length secs cur
  have hsz : (secs.map (fun s => s.payload.length)).getD i 0
      = (secs.getD i default).payload.length := by
    rw [List.getD_eq_getElem _ _ (by omega), List.getElem_map,
      List.getD_eq_getElem _ _ h]
  unfold fld
  rw [List.drop_append_of_le_length (by omega)]
  rw [List.take_append_of_le_length (by
    simp only [List.length_drop]
    omega)]
  have := payloadRegion_slice secs cur i h
  unfold fld at this
  exact this

theorem write_offsets_bound (jprint : MirrorTree → List Nat) (st : XclBinState)
    (skip : Bool) (u : List Nat) (hsz : sizeWF st.header) (hu : u.length = 16)
    (i : Nat) (hi : i < st.sections.length) :
    (writeOffsets (st.sections.map (fun s => s.payload.length))).getD i 0
        + (st.sections.map (fun s => s.payload.length)).getD i 0
      ≤ (writeFile0 jprint st skip u).length := by
  have hlen : (st.sections.map (fun s => s.payload.length)).length = st.sections.length :=
    List.length_map _ _
  have hb := offset_size_le_endOffset (st.sections.map (fun s => s.payload.length))
    (startOffset st.sections.length) i (by omega)
  rw [writeFile0_length jprint st skip u hsz hu]
  unfold writeOffsets
  rw [hlen]
  omega

theorem startOffset_val (n : Nat) : startOffset n = writtenHeaderSize + sizeofSectionHeader * n := by
  simp only [startOffset]
  ring

theorem write_entry_eq (st : XclBinState) (i : Nat) (hi : i < st.sections.length) :
    (sectionEntries st.sections).getD i default
      = (st.sections.getD i default).toEntry
          ((writeOffsets (st.sections.map (fun s => s.payload.length))).getD i 0) := by
  unfold sectionEntries
  exact zipWith_getD _ _ i
    (by simp [writeOffsets, computeOffsets_length]) hi

theorem write_entry_WF (jprint : MirrorTree → List Nat) (st : XclBinState)
    (skip : Bool) (u : List Nat) (hWF : WFstate st) (hu : bytesWF 16 u)
    (hlen : (writeFile0 jprint st skip u).length < 2 ^ 64)
    (i : Nat) (hi : i < st.sections.length) :
    ((st.sections.getD i default).toEntry
      ((writeOffsets (st.sections.map (fun s => s.payload.length))).getD i 0)).WF := by
  have hsz : sizeWF st.header := Axlf.WF.toSizeWF _ hWF.1
  have hmem : st.sections.getD i default ∈ st.sections := by
    rw [List.getD_eq_getElem _ _ hi]
    exact List.getElem_mem _
  obtain ⟨hk, hn, hp⟩ := hWF.2.1 _ hmem
  have hb := write_offsets_bound jprint st skip u hsz hu.1 i hi
  have hszg : (st.sections.map (fun s => s.payload.length)).getD i 0
      = (st.sections.getD i default).payload.length := by
    rw [List.getD_eq_getElem _ _ (by simpa using hi), List.getElem_map,
      List.getD_eq_getElem _ _ hi]
  refine ⟨hk, hn, ?_, ?_⟩ <;> (rw [hszg] at hb; simp only [XSection.toEntry]; omega)

theorem write_entry_parse (jprint : MirrorTree → List Nat) (st : XclBinState)
    (skip : Bool) (u : List Nat) (hWF : WFstate st) (hu : bytesWF 16 u)
    (hlen : (writeFile0 jprint st skip u).length < 2 ^ 64)
    (i : Nat) (hi : i < st.sections.length) :
    parseEntry ((writeXclBinBinary jprint st skip u).2.drop
        (writtenHeaderSize + sizeofSectionHeader * i))
      = (st.sections.getD i default).toEntry
          ((writeOffsets (st.sections.map (fun s => s.payload.length))).getD i 0) := by
  have hsz : sizeWF st.header := Axlf.WF.toSizeWF _ hWF.1
  have hfin : sizeWF (writeXclBinBinary jprint st skip u).1 := by
    unfold writeXclBinBinary
    apply sizeWF_setLength
    unfold writeH1
    cases skip with
    | true => simpa using hsz
    | false => simpa using sizeWF_updateUUID _ _ hsz hu.1
  have hhl : (serializeAxlf (writeXclBinBinary jprint st skip u).1).length
      = writtenHeaderSize := serializeAxlf_length_of_sizeWF _ hfin
  rw [write_bytes_decomp jprint st skip u hsz hu.1]
  rw [drop_skip _ _ _ (by rw [hhl]; omega), hhl]
  have harith : writtenHeaderSize + sizeofSectionHeader * i - writtenHeaderSize
      = sizeofSectionHeader * i := by
    omega
  rw [harith]
  rw [show tableBytes st.sections ++
      (payloadRegion (startOffset st.sections.length) st.sections ++
        (MIRROR_DATA_START ++
          (jprint (mirrorTreeOf (if skip = true then st.header else updateUUID st.header u)
            st.sections) ++ MIRROR_DATA_END)))
    = (sectionEntries st.sections).flatMap serializeEntry ++
      (payloadRegion (startOffset st.sections.length) st.sections ++
        (MIRROR_DATA_START ++
          (jprint (mirrorTreeOf (if skip = true then st.header else updateUUID st.header u)
            st.sections) ++ MIRROR_DATA_END))) from rfl]
  obtain ⟨r, hr⟩ := tableBytes_drop (sectionEntries st.sections) _ i
    (by rw [sectionEntries_length]; omega)
  rw [hr, parseEntry_serialize _ ?_ r, write_entry_eq st i hi]
  rw [write_entry_eq st i hi]
  exact write_entry_WF jprint st skip u hWF hu hlen i hi

theorem write_payload_slice (jprint : MirrorTree → List Nat) (st : XclBinState)
    (skip : Bool) (u : List Nat) (hWF : WFstate st) (hu : bytesWF 16 u)
    (i : Nat) (hi : i < st.sections.length) :
    sliceBytes ((writeXclBinBinary jprint st skip u).2)
        ((writeOffsets (st.sections.map (fun s => s.payload.length))).getD i 0)
        ((st.sections.getD i default).payload.length)
      = (st.sections.getD i default).payload := by
  have hsz : sizeWF st.header := Axlf.WF.toSizeWF _ hWF.1
  have hfin : sizeWF (writeXclBinBinary jprint st skip u).1 := by
    unfold writeXclBinBinary
    apply sizeWF_setLength
    unfold writeH1
    cases skip with
    | true => simpa using hsz
    | false => simpa using sizeWF_updateUUID _ _ hsz hu.1
  have hhl : (serializeAxlf (writeXclBinBinary jprint st skip u).1).length
      = writtenHeaderSize := serializeAxlf_length_of_sizeWF _ hfin
  have hlenm : (st.sections.map (fun s => s.payload.length)).length = st.sections.length :=
    List.length_map _ _
  have hoff := computeOffsets_getD (st.sections.map (fun s => s.payload.length))
    (startOffset st.sections.length) i (by omega)
  have hdecomp := write_bytes_decomp jprint st skip u hsz hu.1
  show fld ((writeXclBinBinary jprint st skip u).2) _ _ = _
  rw [hdecomp]
  rw [show serializeAxlf (writeXclBinBinary jprint st skip u).1 ++
      (tableBytes st.sections ++
        (payloadRegion (startOffset st.sections.length) st.sections ++
          (MIRROR_DATA_START ++
            (jprint (mirrorTreeOf (if skip = true then st.header else updateUUID st.header u)
              st.sections) ++ MIRROR_DATA_END))))
    = (serializeAxlf (writeXclBinBinary jprint st skip u).1 ++ tableBytes st.sections) ++
      (payloadRegion (startOffset st.sections.length) st.sections ++
        (MIRROR_DATA_START ++
          (jprint (mirrorTreeOf (if skip = true then st.header else updateUUID st.header u)
            st.sections) ++ MIRROR_DATA_END))) from by simp [List.append_assoc]]
  have hpre : (serializeAxlf (writeXclBinBinary jprint st skip u).1 ++
      tableBytes st.sections).length = startOffset st.sections.length := by
    rw [List.length_append, hhl, tableBytes_length, startOffset_val]
  rw [fld_skip _ _ _ _ (by rw [hpre, writeOffsets, hlenm] at *; omega)]
  rw [hpre]
  unfold writeOffsets
  rw [hlenm]
  exact payloadRegion_slice_tail st.sections (startOffset st.sections.length) i _ hi

theorem setNumSections_setNumSections (a : Axlf) (x y : Nat) :
    setNumSections (setNumSections a x) y = setNumSections a y := rfl

theorem addSection_eq (st : XclBinState) (c : XSection) :
    addSection st c
      = ⟨setNumSections st.header (st.sections.length + 1), st.sections ++ [c]⟩ := rfl

theorem pickSections_cons_none (env : SectionEnv) (s : XSection) (rest : List XSection)
    (h : createdSection env s = none) :
    pickSections env (s :: rest) = pickSections env rest := by
  simp only [pickSections, List.filterMap_cons, h]

theorem pickSections_cons_some (env : SectionEnv) (s c : XSection) (rest : List XSection)
    (h : createdSection env s = some c) :
    pickSections env (s :: rest) = c :: pickSections env rest := by
  simp only [pickSections, List.filterMap_cons, h]

/-- The section-reading loop on a freshly written file, from an arbitrary
accumulated state: it adds exactly the recognized sections, in order, and
the header keeps the accumulated one except that each add refreshes the
section count. -/
theorem readSectionsFrom_write (env : SectionEnv) (jprint : MirrorTree → List Nat)
    (st : XclBinState) (skip : Bool) (u : List Nat)
    (hWF : WFstate st) (hu : bytesWF 16 u)
    (hlen : (writeFile0 jprint st skip u).length < 2 ^ 64) :
    ∀ m j, j + m = st.sections.length → ∀ st0 : XclBinState,
      readSectionsFrom env ((writeXclBinBinary jprint st skip u).2) (List.range' j m) st0
        = .ok ⟨(if (pickSections env (st.sections.drop j)).length = 0 then st0.header
                else setNumSections st0.header
                  (st0.sections.length + (pickSections env (st.sections.drop j)).length)),
               st0.sections ++ pickSections env (st.sections.drop j)⟩ := by
  have hsz : sizeWF st.header := Axlf.WF.toSizeWF _ hWF.1
  have hblen := write_bytes_length jprint st skip u hsz hu.1
  have hf0len := writeFile0_length jprint st skip u hsz hu.1
  have hend := endOffset_ge (st.sections.map (fun s => s.payload.length))
    (startOffset st.sections.length)
  intro m
  induction m with
  | zero =>
    intro j hj st0
    have hdrop : st.sections.drop j = [] := by
      apply List.drop_eq_nil_of_le
      omega
    rw [show List.range' j 0 = [] from rfl, hdrop]
    simp [readSectionsFrom, pickSections]
  | succ m ih =>
    intro j hj st0
    have hjlt : j < st.sections.length := by omega
    rw [show List.range' j (m + 1) = j :: List.range' (j + 1) m from rfl]
    simp only [readSectionsFrom]
    rw [if_neg (by
      simp only [not_lt]
      rw [hblen, hf0len, mirrorBytesOf_length]
      simp only [startOffset, writtenHeaderSize, sizeofAxlf, sizeofSectionHeader] at hend ⊢
      omega)]
    rw [write_entry_parse jprint st skip u hWF hu hlen j hjlt]
    simp only [XSection.toEntry]
    have hdropj : st.sections.drop j
        = st.sections.getD j default :: st.sections.drop (j + 1) := by
      rw [List.getD_eq_getElem _ _ hjlt]
      exact List.drop_eq_getElem_cons hjlt
    cases hc : env.create (st.sections.getD j default).kind with
    | none =>
      dsimp only
      rw [ih (j + 1) (by omega) st0, hdropj,
        pickSections_cons_none env _ _ (by unfold createdSection; rw [hc]; rfl)]
    | some f =>
      dsimp only
      rw [write_payload_slice jprint st skip u hWF hu j hjlt]
      have hcreated : createdSection env (st.sections.getD j default)
          = some (f (st.sections.getD j default).name
              (st.sections.getD j default).payload) := by
        unfold createdSection
        rw [hc]
        rfl
      rw [ih (j + 1) (by omega)]
      rw [hdropj, pickSections_cons_some env _ _ _ hcreated]
      rw [addSection_eq]
      simp only [List.length_cons, List.length_append, List.length_singleton,
        List.length_nil]
      by_cases hp : (pickSections env (st.sections.drop (j + 1))).length = 0
      · rw [hp]
        simp only [if_pos rfl, Nat.add_zero, if_neg (by omega : ¬ (0 : Nat) + 1 = 0)]
        have hnil : pickSections env (st.sections.drop (j + 1)) = [] :=
          List.length_eq_zero.1 hp
        rw [hnil]
        simp
      · rw [if_neg hp, if_neg (by omega)]
        rw [setNumSections_setNumSections]
        have harith : st0.sections.length + (0 + 1) +
            (pickSections env (st.sections.drop (j + 1))).length
          = st0.sections.length +
            ((pickSections env (st.sections.drop (j + 1))).length + 1) := by
          omega
        rw [harith]
        simp [List.append_assoc]

/-- Master read-back theorem: a non-migrate read of a freshly written file
succeeds, reconstructs exactly the recognized sections in order, and keeps
the file's header except that the section count is refreshed whenever at
least one section was added. -/
theorem readXclBinBinaryM_of_write (env : SectionEnv) (jprint : MirrorTree → List Nat)
    (st : XclBinState) (skip : Bool) (u : List Nat)
    (hWF : WFstate st) (hu : bytesWF 16 u)
    (hlen : (writeFile0 jprint st skip u).length < 2 ^ 64) :
    readXclBinBinaryM env ((writeXclBinBinary jprint st skip u).2)
      = .ok ⟨(if (pickSections env st.sections).length = 0
              then (writeXclBinBinary jprint st skip u).1
              else setNumSections ((writeXclBinBinary jprint st skip u).1)
                  (pickSections env st.sections).length),
             pickSections env st.sections⟩ := by
  unfold readXclBinBinaryM
  rw [read_header_of_write jprint st skip u hWF.1 hu hlen]
  have hnum : (writeXclBinBinary jprint st skip u).1.m_header.m_numSections
      = st.sections.length := by
    have : (writeXclBinBinary jprint st skip u).1.m_header.m_numSections
        = (writeH1 st skip u).m_header.m_numSections := rfl
    rw [this]
    unfold writeH1
    cases skip with
    | true => exact hWF.2.2
    | false => simpa [updateUUID] using hWF.2.2
  dsimp only
  rw [hnum, List.range_eq_range']
  rw [readSectionsFrom_write env jprint st skip u hWF hu hlen st.sections.length 0
    (by omega) _]
  simp

/-- `writeXclBinBinary` keeps the section count of a well-formed container:
the written header records the number of in-memory sections. -/
theorem write_numSections (jprint : MirrorTree → List Nat) (st : XclBinState)
    (skip : Bool) (u : List Nat) (hWF : WFstate st) :
    (writeXclBinBinary jprint st skip u).1.m_header.m_numSections
      = st.sections.length := by
  have h0 : (writeXclBinBinary jprint st skip u).1.m_header.m_numSections
      = (writeH1 st skip u).m_header.m_numSections := rfl
  rw [h0]
  unfold writeH1
  cases skip with
  | true => exact hWF.2.2
  | false => simpa [updateUUID] using hWF.2.2

/-- A concrete well-formed one-section container used for evaluation. -/
def stC : XclBinState :=
  ⟨⟨("xclbin2"), 0, List.replicate 28 0, List.replicate 256 0, 7,
      ⟨0, 1, 2, 3, 4, 5, 6, 7, List.replicate 16 9, ("p"),
        List.replicate 16 8, ("d"), 1⟩⟩,
    [⟨77, ("s"), (""), [1, 2, 3], [], []⟩]⟩

/-- A section environment whose factory recognizes no kind, standing for a
file whose every section kind maps to a null `Section::createSectionObjectOfKind`
result. -/
def envNone : SectionEnv := ⟨fun _ => none, fun _ => none, fun _ => false⟩

/-- A degenerate JSON writer producing an empty mirror body. -/
def jprintNil : MirrorTree → List Nat := fun _ => []

/-- C10: reading back a written file in non-migrate mode silently skips every
table entry whose kind the factory does not recognize (no error is raised),
and the resulting container holds exactly the recognized sections in order.
The header's section-count field equals the number of sections actually added
whenever at least one section was added; when no section is added, it keeps
the count recorded in the file's header (which counts all table entries,
recognized or not), contrary to the claim's final clause. -/
theorem claim_C10_unrecognized_skipped (env : SectionEnv)
    (jprint : MirrorTree → List Nat) (st : XclBinState) (skip : Bool)
    (u : List Nat) (hWF : WFstate st) (hu : bytesWF 16 u)
    (hlen : (writeFile0 jprint st skip u).length < 2 ^ 64) :
    ∃ stR : XclBinState,
      readXclBinBinaryM env ((writeXclBinBinary jprint st skip u).2) = .ok stR ∧
      stR.sections = pickSections env st.sections ∧
      stR.sections.length ≤ st.sections.length ∧
      (stR.sections.length ≠ 0 →
        stR.header.m_header.m_numSections = stR.sections.length) ∧
      (stR.sections.length = 0 →
        stR.header.m_header.m_numSections = st.sections.length) := by
  have hread := readXclBinBinaryM_of_write env jprint st skip u hWF hu hlen
  have hle : (pickSections env st.sections).length ≤ st.sections.length :=
    List.length_filterMap_le _ _
  by_cases hp : (pickSections env st.sections).length = 0
  · rw [if_pos hp] at hread
    refine ⟨_, hread, rfl, hle, ?_, ?_⟩
    · intro h
      exact absurd hp h
    · intro _
      exact write_numSections jprint st skip u hWF
  · rw [if_neg hp] at hread
    refine ⟨_, hread, rfl, hle, ?_, ?_⟩
    · intro _
      rfl
    · intro h
      exact absurd h hp

set_option maxRecDepth 20000 in
/-- C10 counterexample to the claim's section-count clause: writing a
well-formed one-section container and reading it back with a factory that
recognizes no kind succeeds with zero sections added, yet the resulting
header's section count is 1 (the file's recorded count), not 0 (the number
of sections actually added). -/
theorem claim_C10_unrecognized_skipped_counterexample :
    (readXclBinBinaryM envNone
        ((writeXclBinBinary jprintNil stC true (List.replicate 16 0)).2)).map
        (fun stR => (stR.sections.length, stR.header.m_header.m_numSections))
      = .ok (0, 1) := by rfl

set_option maxRecDepth 20000 in
/-- C10 witness: the amended theorem applied at the concrete container. -/
theorem claim_C10_unrecognized_skipped_witness :
    ∃ stR : XclBinState,
      readXclBinBinaryM envNone
          ((writeXclBinBinary jprintNil stC true (List.replicate 16 0)).2)
        = .ok stR ∧
      stR.sections = pickSections envNone stC.sections ∧
      stR.sections.length ≤ stC.sections.length ∧
      (stR.sections.length ≠ 0 →
        stR.header.m_header.m_numSections = stR.sections.length) ∧
      (stR.sections.length = 0 →
        stR.header.m_header.m_numSections = stC.sections.length) :=
  claim_C10_unrecognized_skipped envNone jprintNil stC true (List.replicate 16 0)
    (by decide) (by decide) (by decide)

/-- C4: after a write, the total-length field stored in the file's leading
header bytes equals the total byte count of the produced file; the write
consists of a header-sized placeholder write followed by a final rewrite of
the same leading byte range once the true length is known (the bytes past
the header range are exactly those of the intermediate file, and both header
writes have the written header size). -/
theorem claim_C4_length_invariant (jprint : MirrorTree → List Nat)
    (st : XclBinState) (skip : Bool) (u : List Nat)
    (hWF : st.header.WF) (hu : bytesWF 16 u)
    (hlen : (writeFile0 jprint st skip u).length < 2 ^ 64) :
    (parseAxlf ((writeXclBinBinary jprint st skip u).2)).m_header.m_length
        = ((writeXclBinBinary jprint st skip u).2).length ∧
    (writeXclBinBinary jprint st skip u).2
        = serializeAxlf ((writeXclBinBinary jprint st skip u).1) ++
          (writeFile0 jprint st skip u).drop writtenHeaderSize ∧
    (writeFile0 jprint st skip u).take writtenHeaderSize
        = serializeAxlf (writeH1 st skip u) ∧
    (serializeAxlf (writeH1 st skip u)).length = writtenHeaderSize ∧
    (serializeAxlf ((writeXclBinBinary jprint st skip u).1)).length
        = writtenHeaderSize := by
  have hsz : sizeWF st.header := Axlf.WF.toSizeWF _ hWF
  have hsz1 : sizeWF (writeH1 st skip u) := by
    unfold writeH1
    cases skip with
    | true => simpa using hsz
    | false => simpa using sizeWF_updateUUID _ _ hsz hu.1
  have hfinWF : (writeXclBinBinary jprint st skip u).1.WF := by
    unfold writeXclBinBinary
    exact setLength_WF _ _ (writeH1_WF st skip u hWF hu) hlen
  have hlen1 : (serializeAxlf (writeH1 st skip u)).length = writtenHeaderSize :=
    serializeAxlf_length_of_sizeWF _ hsz1
  have hlenF : (serializeAxlf ((writeXclBinBinary jprint st skip u).1)).length
      = writtenHeaderSize := by
    have : sizeWF (writeXclBinBinary jprint st skip u).1 := by
      unfold writeXclBinBinary
      exact sizeWF_setLength _ _ hsz1
    exact serializeAxlf_length_of_sizeWF _ this
  refine ⟨?_, rfl, ?_, hlen1, hlenF⟩
  · have hshape : (writeXclBinBinary jprint st skip u).2
        = serializeAxlf ((writeXclBinBinary jprint st skip u).1) ++
          (writeFile0 jprint st skip u).drop writtenHeaderSize := rfl
    rw [hshape, parseAxlf_serialize _ hfinWF]
    rw [← hshape]
    exact write_m_length jprint st skip u hsz hu.1
  · have hshape0 : writeFile0 jprint st skip u
        = serializeAxlf (writeH1 st skip u) ++
          (tableBytes st.sections ++
          (payloadRegion (startOffset st.sections.length) st.sections ++
          mirrorBytesOf jprint (writeH1 st skip u) st.sections)) := rfl
    rw [hshape0, ← hlen1, List.take_left]

set_option maxRecDepth 20000 in
/-- C4 witness: the length invariant evaluated on the concrete one-section
container. -/
theorem claim_C4_length_invariant_witness :
    (parseAxlf ((writeXclBinBinary jprintNil stC true (List.replicate 16 0)).2)).m_header.m_length
        = ((writeXclBinBinary jprintNil stC true (List.replicate 16 0)).2).length ∧
    (writeXclBinBinary jprintNil stC true (List.replicate 16 0)).2
        = serializeAxlf ((writeXclBinBinary jprintNil stC true (List.replicate 16 0)).1) ++
          (writeFile0 jprintNil stC true (List.replicate 16 0)).drop writtenHeaderSize ∧
    (writeFile0 jprintNil stC true (List.replicate 16 0)).take writtenHeaderSize
        = serializeAxlf (writeH1 stC true (List.replicate 16 0)) ∧
    (serializeAxlf (writeH1 stC true (List.replicate 16 0))).length = writtenHeaderSize ∧
    (serializeAxlf ((writeXclBinBinary jprintNil stC true (List.replicate 16 0)).1)).length
        = writtenHeaderSize :=
  claim_C4_length_invariant jprintNil stC true (List.replicate 16 0)
    (by decide) (by decide) (by decide)

/-- When the factory/codec pair faithfully reconstructs every stored section,
the recognized-section sweep is the identity. -/
theorem pickSections_eq_self (env : SectionEnv) (secs : List XSection)
    (h : ∀ s ∈ secs, createdSection env s = some s) :
    pickSections env secs = secs := by
  induction secs with
  | nil => rfl
  | cons a l ih =>
    simp only [pickSections, List.filterMap_cons, h a (by simp)]
    have hl : pickSections env l = l := ih (fun s hs => h s (by simp [hs]))
    simp only [pickSections] at hl
    rw [hl]

/-- Refreshing the section count with its current value is the identity. -/
theorem setNumSections_self (a : Axlf) :
    setNumSections a a.m_header.m_numSections = a := by
  cases a with
  | mk m sig res kb uid hdr =>
    cases hdr
    rfl

/-- An identity section environment: every kind is recognized and the codec
reproduces the table coordinates verbatim (empty index name, no key/value
pairs, no sub-payloads). -/
def envId : SectionEnv :=
  ⟨fun k => some (fun n p => ⟨k, n, (""), p, [], []⟩), fun _ => none, fun _ => false⟩

/-- C1 (amended): writing a well-formed container and reading the file back
in non-migrate mode with a factory/codec pair that faithfully reconstructs
every stored section succeeds and yields the identical ordered section list;
the header is identical except for TWO fields: the UUID (replaced by the
fresh UUID unless insertion was skipped) and the total-length field, which
the write patches to the produced file's byte count regardless of skipping —
restoring those two fields recovers the original header exactly. -/
theorem claim_C1_roundtrip (env : SectionEnv) (jprint : MirrorTree → List Nat)
    (st : XclBinState) (skip : Bool) (u : List Nat)
    (hWF : WFstate st) (hu : bytesWF 16 u)
    (hlen : (writeFile0 jprint st skip u).length < 2 ^ 64)
    (hfid : ∀ s ∈ st.sections, createdSection env s = some s) :
    ∃ stR : XclBinState,
      readXclBinBinaryM env ((writeXclBinBinary jprint st skip u).2) = .ok stR ∧
      stR.sections = st.sections ∧
      stR.header.m_header.uuid
        = (if skip then st.header.m_header.uuid else u) ∧
      stR.header.m_header.m_length
        = ((writeXclBinBinary jprint st skip u).2).length ∧
      setLength (updateUUID stR.header st.header.m_header.uuid)
          st.header.m_header.m_length
        = st.header := by
  have hsz : sizeWF st.header := Axlf.WF.toSizeWF _ hWF.1
  have hpick : pickSections env st.sections = st.sections :=
    pickSections_eq_self env st.sections hfid
  have hread := readXclBinBinaryM_of_write env jprint st skip u hWF hu hlen
  rw [hpick] at hread
  have hhdr : (if st.sections.length = 0
        then (writeXclBinBinary jprint st skip u).1
        else setNumSections ((writeXclBinBinary jprint st skip u).1)
            st.sections.length)
      = (writeXclBinBinary jprint st skip u).1 := by
    by_cases h0 : st.sections.length = 0
    · rw [if_pos h0]
    · rw [if_neg h0, ← write_numSections jprint st skip u hWF,
        setNumSections_self]
  rw [hhdr] at hread
  refine ⟨_, hread, rfl, ?_, ?_, ?_⟩
  · show (setLength (writeH1 st skip u) _).m_header.uuid = _
    unfold setLength writeH1 updateUUID
    cases skip with
    | true => rfl
    | false => rfl
  · exact write_m_length jprint st skip u hsz hu.1
  · show setLength (updateUUID (setLength (writeH1 st skip u) _) _) _ = _
    unfold setLength writeH1 updateUUID
    cases skip with
    | true => rfl
    | false => rfl

set_option maxRecDepth 20000 in
/-- C1 counterexample to the unamended claim: on the concrete one-section
container, written with UUID insertion skipped and read back with the
identity factory, the sections round-trip exactly but the header does NOT
(its total-length field was patched from 0 to the file size), even though
the UUID was untouched. -/
theorem claim_C1_roundtrip_counterexample :
    (readXclBinBinaryM envId
        ((writeXclBinBinary jprintNil stC true (List.replicate 16 0)).2)).map
        (fun stR => (stR.sections == stC.sections, stR.header == stC.header,
          stR.header.m_header.uuid == stC.header.m_header.uuid))
      = .ok (true, false, true) := by rfl

set_option maxRecDepth 20000 in
/-- C1 witness: the amended round-trip applied to the concrete container. -/
theorem claim_C1_roundtrip_witness :
    ∃ stR : XclBinState,
      readXclBinBinaryM envId
          ((writeXclBinBinary jprintNil stC true (List.replicate 16 0)).2)
        = .ok stR ∧
      stR.sections = stC.sections ∧
      stR.header.m_header.uuid
        = (if true then stC.header.m_header.uuid else List.replicate 16 0) ∧
      stR.header.m_header.m_length
        = ((writeXclBinBinary jprintNil stC true (List.replicate 16 0)).2).length ∧
      setLength (updateUUID stR.header stC.header.m_header.uuid)
          stC.header.m_header.m_length
        = stC.header :=
  claim_C1_roundtrip envId jprintNil stC true (List.replicate 16 0)
    (by decide) (by decide) (by decide) (by decide)

/-- A list is a prefix-of itself followed by anything. -/
theorem isPrefixOf_app (l r : List Nat) : l.isPrefixOf (l ++ r) = true := by
  induction l with
  | nil => simp [List.isPrefixOf]
  | cons a as ih => simp [List.isPrefixOf, ih]

/-- A prefix-of test fails immediately on mismatching heads. -/
theorem isPrefixOf_cons_ne (a b : Nat) (as bs : List Nat) (h : ¬ a = b) :
    (a :: as).isPrefixOf (b :: bs) = false := by
  simp [List.isPrefixOf, h]

/-- Dropping past the zeroed range reads the original stream unchanged. -/
theorem zeroHeader_drop (bytes : List Nat) (k : Nat) (hk : writtenHeaderSize ≤ k) :
    (zeroHeaderBytes bytes).drop k = bytes.drop k := by
  unfold zeroHeaderBytes
  rw [show k = writtenHeaderSize + (k - writtenHeaderSize) from by omega]
  rw [show writtenHeaderSize + (k - writtenHeaderSize)
      = (List.replicate writtenHeaderSize (0 : Nat)).length + (k - writtenHeaderSize) from by
    rw [List.length_replicate]]
  rw [List.drop_append, List.drop_drop, List.length_replicate]

/-- Every recorded offset is at least the payload region start. -/
theorem writeOffsets_ge (sizes : List Nat) (i : Nat) (hi : i < sizes.length) :
    startOffset sizes.length ≤ (writeOffsets sizes).getD i 0 := by
  unfold writeOffsets
  rw [computeOffsets_getD _ _ _ hi]
  omega

/-- The payload region start is past the written header range. -/
theorem startOffset_ge (n : Nat) : writtenHeaderSize ≤ startOffset n := by
  simp only [startOffset]
  omega

/-- Core sentinel-scan landing lemma: on a stream laid out as an arbitrary
prefix, the start sentinel, a JSON body and the end sentinel (nothing after),
a clean scan (no false sentinel match inside the prefix or the body) makes
`findAndReadMirrorData` hand exactly the body to the JSON reader. -/
theorem findMirror_exact (jparse : List Nat → Except (Nat × String) MirrorTree)
    (tree : MirrorTree) (jp pre : List Nat)
    (hpj : jparse jp = .ok tree)
    (hcleanS : ∀ j < pre.length, ¬ MIRROR_DATA_START.isPrefixOf
      ((pre ++ (MIRROR_DATA_START ++ (jp ++ MIRROR_DATA_END))).drop j) = true)
    (hcleanE : ∀ j < jp.length, ¬ MIRROR_DATA_END.isPrefixOf
      ((jp ++ MIRROR_DATA_END).drop j) = true) :
    findAndReadMirrorData jparse (pre ++ (MIRROR_DATA_START ++ (jp ++ MIRROR_DATA_END)))
      = .ok tree := by
  have e1 : findBytes MIRROR_DATA_START
      (pre ++ (MIRROR_DATA_START ++ (jp ++ MIRROR_DATA_END))) = some pre.length :=
    findBytes_exact _ _ _ (isPrefixOf_app _ _) hcleanS
  have hdropS : (pre ++ (MIRROR_DATA_START ++ (jp ++ MIRROR_DATA_END))).drop
      (pre.length + MIRROR_DATA_START.length) = jp ++ MIRROR_DATA_END := by
    rw [show pre ++ (MIRROR_DATA_START ++ (jp ++ MIRROR_DATA_END))
        = (pre ++ MIRROR_DATA_START) ++ (jp ++ MIRROR_DATA_END) from by
      rw [List.append_assoc]]
    rw [show pre.length + MIRROR_DATA_START.length
        = (pre ++ MIRROR_DATA_START).length from by rw [List.length_append]]
    exact List.drop_left _ _
  have hEself : MIRROR_DATA_END.isPrefixOf MIRROR_DATA_END = true := by
    have := isPrefixOf_app MIRROR_DATA_END []
    rwa [List.append_nil] at this
  have e2 : findBytes MIRROR_DATA_END
      ((pre ++ (MIRROR_DATA_START ++ (jp ++ MIRROR_DATA_END))).drop
        (pre.length + MIRROR_DATA_START.length)) = some jp.length := by
    rw [hdropS]
    exact findBytes_exact _ _ _ hEself hcleanE
  have e3 : sliceBytes (pre ++ (MIRROR_DATA_START ++ (jp ++ MIRROR_DATA_END)))
      (pre.length + MIRROR_DATA_START.length) jp.length = jp := by
    unfold sliceBytes
    rw [hdropS]
    exact List.take_left _ _
  unfold findAndReadMirrorData
  rw [e1]
  dsimp only
  rw [e2]
  dsimp only
  rw [e3]
  rw [hpj]

/-- The written file, split as everything before the mirror followed by the
sentinel-delimited mirror region. -/
theorem write_mirror_decomp (jprint : MirrorTree → List Nat) (st : XclBinState)
    (skip : Bool) (u : List Nat) (hsz : sizeWF st.header) (hu : u.length = 16) :
    (writeXclBinBinary jprint st skip u).2
      = (serializeAxlf (writeXclBinBinary jprint st skip u).1 ++
          (tableBytes st.sections ++
           payloadRegion (startOffset st.sections.length) st.sections)) ++
        (MIRROR_DATA_START ++
          (jprint (mirrorTreeOf (writeH1 st skip u) st.sections) ++ MIRROR_DATA_END)) := by
  rw [write_bytes_decomp jprint st skip u hsz hu]
  simp only [writeH1, List.append_assoc]

/-- The pre-mirror prefix of the written file ends exactly at the layout
loop's final offset. -/
theorem write_pre_length (jprint : MirrorTree → List Nat) (st : XclBinState)
    (skip : Bool) (u : List Nat) (hsz : sizeWF st.header) (hu : u.length = 16) :
    (serializeAxlf (writeXclBinBinary jprint st skip u).1 ++
        (tableBytes st.sections ++
         payloadRegion (startOffset st.sections.length) st.sections)).length
      = endOffset (startOffset st.sections.length)
          (st.sections.map (fun s => s.payload.length)) := by
  have hfin : sizeWF (writeXclBinBinary jprint st skip u).1 := by
    unfold writeXclBinBinary
    apply sizeWF_setLength
    unfold writeH1
    cases skip with
    | true => simpa using hsz
    | false => simpa using sizeWF_updateUUID _ _ hsz hu
  have hreg := payloadRegion_length st.sections (startOffset st.sections.length)
  simp only [List.length_append, serializeAxlf_length_of_sizeWF _ hfin, tableBytes_length]
  simp only [startOffset, writtenHeaderSize, sizeofAxlf, sizeofSectionHeader] at hreg ⊢
  omega

/-- On a written file whose scan is clean, `findAndReadMirrorData` recovers
exactly the mirror tree the write serialized. -/
theorem findMirror_of_write (jprint : MirrorTree → List Nat)
    (jparse : List Nat → Except (Nat × String) MirrorTree)
    (st : XclBinState) (skip : Bool) (u : List Nat)
    (hsz : sizeWF st.header) (hu : u.length = 16)
    (hpj : jparse (jprint (mirrorTreeOf (writeH1 st skip u) st.sections))
      = .ok (mirrorTreeOf (writeH1 st skip u) st.sections))
    (hcleanS : ∀ j < endOffset (startOffset st.sections.length)
        (st.sections.map (fun s => s.payload.length)),
      ¬ MIRROR_DATA_START.isPrefixOf
        (((writeXclBinBinary jprint st skip u).2).drop j) = true)
    (hcleanE : ∀ j < (jprint (mirrorTreeOf (writeH1 st skip u) st.sections)).length,
      ¬ MIRROR_DATA_END.isPrefixOf
        (((jprint (mirrorTreeOf (writeH1 st skip u) st.sections)) ++
          MIRROR_DATA_END).drop j) = true) :
    findAndReadMirrorData jparse ((writeXclBinBinary jprint st skip u).2)
      = .ok (mirrorTreeOf (writeH1 st skip u) st.sections) := by
  rw [write_mirror_decomp jprint st skip u hsz hu]
  apply findMirror_exact _ _ _ _ hpj
  · intro j hj
    rw [← write_mirror_decomp jprint st skip u hsz hu]
    apply hcleanS j
    rw [write_pre_length jprint st skip u hsz hu] at hj
    exact hj
  · exact hcleanE

/-- The same landing holds after zeroing the leading header-sized byte range:
the zeroed range cannot spell a sentinel (its bytes are all 0), and the scan
past it reads the unchanged remainder of the stream. -/
theorem findMirror_of_write_zeroed (jprint : MirrorTree → List Nat)
    (jparse : List Nat → Except (Nat × String) MirrorTree)
    (st : XclBinState) (skip : Bool) (u : List Nat)
    (hsz : sizeWF st.header) (hu : u.length = 16)
    (hpj : jparse (jprint (mirrorTreeOf (writeH1 st skip u) st.sections))
      = .ok (mirrorTreeOf (writeH1 st skip u) st.sections))
    (hcleanS : ∀ j < endOffset (startOffset st.sections.length)
        (st.sections.map (fun s => s.payload.length)),
      ¬ MIRROR_DATA_START.isPrefixOf
        (((writeXclBinBinary jprint st skip u).2).drop j) = true)
    (hcleanE : ∀ j < (jprint (mirrorTreeOf (writeH1 st skip u) st.sections)).length,
      ¬ MIRROR_DATA_END.isPrefixOf
        (((jprint (mirrorTreeOf (writeH1 st skip u) st.sections)) ++
          MIRROR_DATA_END).drop j) = true) :
    findAndReadMirrorData jparse
        (zeroHeaderBytes ((writeXclBinBinary jprint st skip u).2))
      = .ok (mirrorTreeOf (writeH1 st skip u) st.sections) := by
  have hpre456 : writtenHeaderSize ≤
      (serializeAxlf (writeXclBinBinary jprint st skip u).1 ++
        (tableBytes st.sections ++
         payloadRegion (startOffset st.sections.length) st.sections)).length := by
    rw [write_pre_length jprint st skip u hsz hu]
    exact le_trans (startOffset_ge _) (endOffset_ge _ _)
  have hzdecomp : zeroHeaderBytes ((writeXclBinBinary jprint st skip u).2)
      = (List.replicate writtenHeaderSize 0 ++
          (serializeAxlf (writeXclBinBinary jprint st skip u).1 ++
            (tableBytes st.sections ++
             payloadRegion (startOffset st.sections.length) st.sections)).drop
            writtenHeaderSize) ++
        (MIRROR_DATA_START ++
          (jprint (mirrorTreeOf (writeH1 st skip u) st.sections) ++
            MIRROR_DATA_END)) := by
    unfold zeroHeaderBytes
    rw [write_mirror_decomp jprint st skip u hsz hu]
    rw [List.drop_append_of_le_length hpre456]
    rw [List.append_assoc]
  have hpreZlen : (List.replicate writtenHeaderSize (0 : Nat) ++
      (serializeAxlf (writeXclBinBinary jprint st skip u).1 ++
        (tableBytes st.sections ++
         payloadRegion (startOffset st.sections.length) st.sections)).drop
        writtenHeaderSize).length
      = endOffset (startOffset st.sections.length)
          (st.sections.map (fun s => s.payload.length)) := by
    have hx := write_pre_length jprint st skip u hsz hu
    have hy := hpre456
    simp only [List.length_append] at hx hy
    simp only [List.length_append, List.length_replicate, List.length_drop]
    omega
  rw [hzdecomp]
  apply findMirror_exact _ _ _ _ hpj
  · intro j hj
    rw [← hzdecomp]
    by_cases hjw : j < writtenHeaderSize
    · unfold zeroHeaderBytes
      rw [List.drop_append_of_le_length (by rw [List.length_replicate]; omega)]
      rw [List.drop_replicate]
      rw [show writtenHeaderSize - j = (writtenHeaderSize - j - 1) + 1 from by
        simp only [writtenHeaderSize] at hjw ⊢
        omega]
      rw [List.replicate_succ, List.cons_append]
      rw [show MIRROR_DATA_START = 88 :: MIRROR_DATA_START.tail from by decide]
      rw [isPrefixOf_cons_ne _ _ _ _ (by decide)]
      simp
    · rw [zeroHeader_drop _ _ (by omega)]
      apply hcleanS j
      rw [hpreZlen] at hj
      exact hj
  · exact hcleanE

/-- Walking the mirrored `section_header` entries from index `j` on a stream
whose payload slices at the recorded coordinates reproduce the stored
payloads, with a faithful factory, adds exactly the remaining sections in
order. -/
theorem readMirrorImage_walk (env : SectionEnv) (bs : List Nat) (st : XclBinState)
    (hfid : ∀ s ∈ st.sections, createdSection env s = some s)
    (hslice : ∀ i, i < st.sections.length →
      sliceBytes bs
          ((writeOffsets (st.sections.map (fun s => s.payload.length))).getD i 0)
          ((st.sections.getD i default).payload.length)
        = (st.sections.getD i default).payload) :
    ∀ m j, j + m = st.sections.length → ∀ st1 : XclBinState,
      readMirrorImage env bs
          (((sectionEntries st.sections).drop j).map (fun e => ((("section_header")),
            MirrorNode.sectionHeader
              ⟨e.m_sectionKind, e.m_sectionName, e.m_sectionOffset, e.m_sectionSize⟩)))
          st1
        = .ok ⟨(if m = 0 then st1.header
                else setNumSections st1.header (st1.sections.length + m)),
               st1.sections ++ st.sections.drop j⟩ := by
  intro m
  induction m with
  | zero =>
    intro j hj st1
    have hdrops : st.sections.drop j = [] :=
      List.drop_eq_nil_of_le (by omega)
    have hdrope : (sectionEntries st.sections).drop j = [] :=
      List.drop_eq_nil_of_le (by rw [sectionEntries_length]; omega)
    rw [hdrops, hdrope]
    simp [readMirrorImage]
  | succ m ih =>
    intro j hj st1
    have hjlt : j < st.sections.length := by omega
    have hjlt2 : j < (sectionEntries st.sections).length := by
      rw [sectionEntries_length]; exact hjlt
    have hdrope : (sectionEntries st.sections).drop j
        = (sectionEntries st.sections).getD j default ::
          (sectionEntries st.sections).drop (j + 1) := by
      rw [List.getD_eq_getElem _ _ hjlt2]
      exact List.drop_eq_getElem_cons hjlt2
    have hdrops : st.sections.drop j
        = st.sections.getD j default :: st.sections.drop (j + 1) := by
      rw [List.getD_eq_getElem _ _ hjlt]
      exact List.drop_eq_getElem_cons hjlt
    rw [hdrope, write_entry_eq st j hjlt, List.map_cons]
    simp only [readMirrorImage]
    rw [if_neg (by decide), if_neg (by decide), if_pos trivial]
    dsimp only [XSection.toEntry]
    have hmem : st.sections.getD j default ∈ st.sections := by
      rw [List.getD_eq_getElem _ _ hjlt]
      exact List.getElem_mem hjlt
    have hcr := hfid _ hmem
    unfold createdSection at hcr
    cases hc : env.create (st.sections.getD j default).kind with
    | none =>
      rw [hc] at hcr
      exact absurd hcr (by simp)
    | some f =>
      rw [hc] at hcr
      rw [show Option.map
          (fun f => f (st.sections.getD j default).name
            (st.sections.getD j default).payload) (some f)
          = some (f (st.sections.getD j default).name
            (st.sections.getD j default).payload) from rfl] at hcr
      injection hcr with hf
      unfold readXclBinSectionM
      rw [hc]
      dsimp only
      rw [hslice j hjlt, hf]
      rw [ih (j + 1) (by omega)]
      rw [addSection_eq]
      rw [hdrops]
      simp only [List.length_cons, List.length_append, List.length_singleton,
        List.length_nil]
      by_cases hp : m = 0
      · subst hp
        rw [if_pos rfl, if_neg (by omega)]
        have hnil : st.sections.drop (j + 1) = [] :=
          List.drop_eq_nil_of_le (by omega)
        rw [hnil]
        simp
      · rw [if_neg hp, if_neg (by omega)]
        rw [setNumSections_setNumSections]
        rw [show st1.sections.length + (0 + 1) + m
            = st1.sections.length + (m + 1) from by omega]
        simp [List.append_assoc]

/-- Migrate read of a stream carrying the written mirror: starting from a
fresh container, the mirror walk repopulates the header from the mirrored
fields and re-adds every section by re-reading its payload from the
stream at the recorded coordinates. -/
theorem migrate_read_of_write (env : SectionEnv)
    (jparse : List Nat → Except (Nat × String) MirrorTree)
    (st : XclBinState) (skip : Bool) (u : List Nat) (a0 : Axlf) (bs : List Nat)
    (hfind : findAndReadMirrorData jparse bs
      = .ok (mirrorTreeOf (writeH1 st skip u) st.sections))
    (hfid : ∀ s ∈ st.sections, createdSection env s = some s)
    (hslice : ∀ i, i < st.sections.length →
      sliceBytes bs
          ((writeOffsets (st.sections.map (fun s => s.payload.length))).getD i 0)
          ((st.sections.getD i default).payload.length)
        = (st.sections.getD i default).payload) :
    readXclBinBinaryMigrateM env jparse ⟨a0, []⟩ bs
      = .ok ⟨(if st.sections.length = 0
              then headerFromMirror (addHeaderMirrorData (writeH1 st skip u))
              else setNumSections
                (headerFromMirror (addHeaderMirrorData (writeH1 st skip u)))
                st.sections.length),
             st.sections⟩ := by
  unfold readXclBinBinaryMigrateM
  rw [hfind]
  dsimp only
  unfold mirrorTreeOf
  simp only [readMirrorImage]
  rw [if_pos trivial]
  rw [if_neg (by decide), if_pos trivial]
  have hw := readMirrorImage_walk env bs st hfid hslice st.sections.length 0
    (by omega) ⟨headerFromMirror (addHeaderMirrorData (writeH1 st skip u)), []⟩
  rw [List.drop_zero] at hw
  rw [hw]
  simp

/-- Restoring the three unmirrored fields (total length, action mask,
reserved bytes) into the mirror-rebuilt header recovers the binary header
exactly. -/
theorem restore_mirror (a : Axlf) (L n : Nat) :
    { (setNumSections (headerFromMirror (addHeaderMirrorData a)) n) with
        reserved := (setNumSections (setLength a L) n).reserved
        m_header := { (setNumSections (headerFromMirror (addHeaderMirrorData a)) n).m_header with
          m_length := (setNumSections (setLength a L) n).m_header.m_length
          m_actionMask := (setNumSections (setLength a L) n).m_header.m_actionMask } }
      = setNumSections (setLength a L) n := by
  cases a with
  | mk m sig res kb uid hdr =>
    cases hdr
    rfl

/-- C3 (amended): with a faithful factory, a JSON writer/reader pair that
round-trips the mirror tree, and a clean sentinel scan, reading a freshly
written file with migrate=true succeeds, returns the identical result even
when the leading binary header bytes are zeroed first (only the mirror and
the payload bytes at its recorded offsets are consulted), and reconstructs
the same sections as the direct binary read — but NOT the same header: the
mirror does not carry the total length, the action mask or the reserved
bytes, so the migrate header holds zeros there, and restoring those three
fields from the binary header recovers it exactly. -/
theorem claim_C3_migration (env : SectionEnv)
    (jparse : List Nat → Except (Nat × String) MirrorTree)
    (jprint : MirrorTree → List Nat) (st : XclBinState) (skip : Bool)
    (u : List Nat) (a0 : Axlf)
    (hWF : WFstate st) (hu : bytesWF 16 u)
    (hlen : (writeFile0 jprint st skip u).length < 2 ^ 64)
    (hfid : ∀ s ∈ st.sections, createdSection env s = some s)
    (hpj : jparse (jprint (mirrorTreeOf (writeH1 st skip u) st.sections))
      = .ok (mirrorTreeOf (writeH1 st skip u) st.sections))
    (hcleanS : ∀ j < endOffset (startOffset st.sections.length)
        (st.sections.map (fun s => s.payload.length)),
      ¬ MIRROR_DATA_START.isPrefixOf
        (((writeXclBinBinary jprint st skip u).2).drop j) = true)
    (hcleanE : ∀ j < (jprint (mirrorTreeOf (writeH1 st skip u) st.sections)).length,
      ¬ MIRROR_DATA_END.isPrefixOf
        (((jprint (mirrorTreeOf (writeH1 st skip u) st.sections)) ++
          MIRROR_DATA_END).drop j) = true) :
    ∃ stM stB : XclBinState,
      readXclBinBinaryMigrateM env jparse ⟨a0, []⟩
          ((writeXclBinBinary jprint st skip u).2) = .ok stM ∧
      readXclBinBinaryMigrateM env jparse ⟨a0, []⟩
          (zeroHeaderBytes ((writeXclBinBinary jprint st skip u).2)) = .ok stM ∧
      readXclBinBinaryM env ((writeXclBinBinary jprint st skip u).2) = .ok stB ∧
      stM.sections = stB.sections ∧
      stM.header.m_header.m_length = 0 ∧
      stM.header.m_header.m_actionMask = 0 ∧
      stM.header.reserved = List.replicate 28 0 ∧
      { stM.header with
        reserved := stB.header.reserved
        m_header := { stM.header.m_header with
          m_length := stB.header.m_header.m_length
          m_actionMask := stB.header.m_header.m_actionMask } } = stB.header := by
  have hsz : sizeWF st.header := Axlf.WF.toSizeWF _ hWF.1
  have hfindB := findMirror_of_write jprint jparse st skip u hsz hu.1 hpj hcleanS hcleanE
  have hfindZ := findMirror_of_write_zeroed jprint jparse st skip u hsz hu.1 hpj
    hcleanS hcleanE
  have hsliceB : ∀ i, i < st.sections.length →
      sliceBytes ((writeXclBinBinary jprint st skip u).2)
          ((writeOffsets (st.sections.map (fun s => s.payload.length))).getD i 0)
          ((st.sections.getD i default).payload.length)
        = (st.sections.getD i default).payload :=
    fun i hi => write_payload_slice jprint st skip u hWF hu i hi
  have hsliceZ : ∀ i, i < st.sections.length →
      sliceBytes (zeroHeaderBytes ((writeXclBinBinary jprint st skip u).2))
          ((writeOffsets (st.sections.map (fun s => s.payload.length))).getD i 0)
          ((st.sections.getD i default).payload.length)
        = (st.sections.getD i default).payload := by
    intro i hi
    have h1 := writeOffsets_ge (st.sections.map (fun s => s.payload.length)) i
      (by rw [List.length_map]; exact hi)
    have h2 := startOffset_ge (st.sections.map (fun s => s.payload.length)).length
    unfold sliceBytes
    rw [zeroHeader_drop _ _ (by omega)]
    exact write_payload_slice jprint st skip u hWF hu i hi
  have hM := migrate_read_of_write env jparse st skip u a0
    ((writeXclBinBinary jprint st skip u).2) hfindB hfid hsliceB
  have hMz := migrate_read_of_write env jparse st skip u a0
    (zeroHeaderBytes ((writeXclBinBinary jprint st skip u).2)) hfindZ hfid hsliceZ
  have hB0 := readXclBinBinaryM_of_write env jprint st skip u hWF hu hlen
  rw [pickSections_eq_self env st.sections hfid] at hB0
  have hifM : (if st.sections.length = 0
        then headerFromMirror (addHeaderMirrorData (writeH1 st skip u))
        else setNumSections
          (headerFromMirror (addHeaderMirrorData (writeH1 st skip u)))
          st.sections.length)
      = setNumSections (headerFromMirror (addHeaderMirrorData (writeH1 st skip u)))
          st.sections.length := by
    by_cases h0 : st.sections.length = 0
    · rw [if_pos h0, h0]
      rfl
    · rw [if_neg h0]
  have hifB : (if st.sections.length = 0
        then (writeXclBinBinary jprint st skip u).1
        else setNumSections ((writeXclBinBinary jprint st skip u).1)
          st.sections.length)
      = setNumSections ((writeXclBinBinary jprint st skip u).1)
          st.sections.length := by
    by_cases h0 : st.sections.length = 0
    · rw [if_pos h0, h0,
        show (0 : Nat) = (writeXclBinBinary jprint st skip u).1.m_header.m_numSections
          from by rw [write_numSections jprint st skip u hWF, h0]]
      exact (setNumSections_self _).symm
    · rw [if_neg h0]
  rw [hifM] at hM hMz
  rw [hifB] at hB0
  refine ⟨_, _, hM, hMz, hB0, rfl, rfl, rfl, rfl, ?_⟩
  show { (setNumSections (headerFromMirror (addHeaderMirrorData (writeH1 st skip u)))
        st.sections.length) with
      reserved := (setNumSections (setLength (writeH1 st skip u)
        (writeFile0 jprint st skip u).length) st.sections.length).reserved
      m_header := { (setNumSections
          (headerFromMirror (addHeaderMirrorData (writeH1 st skip u)))
          st.sections.length).m_header with
        m_length := (setNumSections (setLength (writeH1 st skip u)
          (writeFile0 jprint st skip u).length)
          st.sections.length).m_header.m_length
        m_actionMask := (setNumSections (setLength (writeH1 st skip u)
          (writeFile0 jprint st skip u).length)
          st.sections.length).m_header.m_actionMask } }
    = setNumSections (setLength (writeH1 st skip u)
        (writeFile0 jprint st skip u).length) st.sections.length
  exact restore_mirror (writeH1 st skip u) (writeFile0 jprint st skip u).length
    st.sections.length

/-- A JSON reader that returns the concrete container's mirror tree for any
input, standing for `boost::property_tree::read_json` on the written mirror. -/
def jparseC3 : List Nat → Except (Nat × String) MirrorTree :=
  fun _ => .ok (mirrorTreeOf (writeH1 stC true (List.replicate 16 0)) stC.sections)

set_option maxRecDepth 20000 in
/-- C3 counterexample to the unamended claim: on the concrete one-section
container the migrate read and the binary read agree on the sections but NOT
on the header — the migrate header has total length 0 and action mask 0
where the binary header has 545 and 7. -/
theorem claim_C3_migration_counterexample :
    (readXclBinBinaryMigrateM envId jparseC3 ⟨stC.header, []⟩
        ((writeXclBinBinary jprintNil stC true (List.replicate 16 0)).2)).map
        (fun stM => (stM.sections == stC.sections,
          stM.header.m_header.m_length, stM.header.m_header.m_actionMask))
      = .ok (true, 0, 0) ∧
    (readXclBinBinaryM envId
        ((writeXclBinBinary jprintNil stC true (List.replicate 16 0)).2)).map
        (fun stB => (stB.sections == stC.sections,
          stB.header.m_header.m_length, stB.header.m_header.m_actionMask))
      = .ok (true, 545, 7) := by
  constructor
  · rfl
  · rfl

set_option maxRecDepth 20000 in
/-- C3 witness: the amended migration theorem applied to the concrete
container. -/
theorem claim_C3_migration_witness :
    ∃ stM stB : XclBinState,
      readXclBinBinaryMigrateM envId jparseC3 ⟨stC.header, []⟩
          ((writeXclBinBinary jprintNil stC true (List.replicate 16 0)).2) = .ok stM ∧
      readXclBinBinaryMigrateM envId jparseC3 ⟨stC.header, []⟩
          (zeroHeaderBytes
            ((writeXclBinBinary jprintNil stC true (List.replicate 16 0)).2)) = .ok stM ∧
      readXclBinBinaryM envId
          ((writeXclBinBinary jprintNil stC true (List.replicate 16 0)).2) = .ok stB ∧
      stM.sections = stB.sections ∧
      stM.header.m_header.m_length = 0 ∧
      stM.header.m_header.m_actionMask = 0 ∧
      stM.header.reserved = List.replicate 28 0 ∧
      { stM.header with
        reserved := stB.header.reserved
        m_header := { stM.header.m_header with
          m_length := stB.header.m_header.m_length
          m_actionMask := stB.header.m_header.m_actionMask } } = stB.header :=
  claim_C3_migration envId jparseC3 jprintNil stC true (List.replicate 16 0)
    stC.header (by decide) (by decide) (by decide) (by decide) (by rfl)
    (by decide) (by decide)

end XclbinModel
